import Mathlib

/-!
# llm-data-analyzer: chunking, dispatch and recursive summarization

A shallow embedding of the Go packages `pkg/splitter`, `pkg/summarizer` and of
the analysis/combination part of `cmd/root.go`, followed by theorems about
them.

Conventions of the embedding

* Go `int` values are `Int`.  The only arithmetic is `i + chunkSize` in
  `Splitter.Split`, computed while `i < len(tokens)` and, once `i > 0`, with
  `chunkSize ≤ i`, and the running token count of `Splitter.SplitJSONL`, a sum
  of two lengths of token slices held in memory; neither can reach `2^63`, so
  64-bit wrap-around is not modelled.
* A Go `string` is a sequence of bytes, not necessarily valid UTF-8 (the
  decoding of a token window may end inside a multi-byte character); it is
  the `String` with one character per byte, of code point 0 to 255.  Every
  text the embedding itself writes is ASCII.  `[]int` is `List Int`,
  `[]string` is `List String`.
* A Go function returning `(T, error)` returns `Result T`; a run-time panic and
  a loop that never ends are separate outcomes of `Result`.
* Libraries outside the repository (tiktoken, encoding/json, bufio, os, the
  HTTP endpoint behind `llm.Client.Analyze`) are parameters.
-/

/-- Errors returned by the functions of the repository (their `fmt.Errorf` texts in comments). -/
inductive Error where
  /-- failed to get tiktoken encoding: %w -/
  | encoding (cause : String)
  /-- failed to read content: %w -/
  | read (cause : String)
  /-- invalid JSON in line: %s -/
  | invalidJSON (line : String)
  /-- line is too long to fit in a chunk: %d tokens -/
  | lineTooLong (tokens : Nat)
  /-- error reading input: %w -/
  | scan (cause : String)
  /-- an error returned by `llm.Client.Analyze`, passed on unchanged -/
  | analyze (cause : String)
  /-- failed to split text for summarization: %w -/
  | splitFailed (cause : Error)
  /-- summarization reached max iterations (%d), potential infinite loop -/
  | maxIterations (cap : Nat)
  /-- failed to analyze chunk %d: %w -/
  | chunkAnalysis (chunk : Nat) (cause : String)
  /-- failed to write result for chunk %d: %w -/
  | chunkWrite (chunk : Nat) (cause : String)
  /-- failed to read temporary directory: %w -/
  | readDir (cause : String)
  /-- failed to read intermediate file %s: %w -/
  | readIntermediate (name : String) (cause : String)
  /-- failed to read summary prompt file: %w -/
  | summaryPrompt (cause : String)
  /-- failed to create summarizer: %w -/
  | createSummarizer (cause : Error)
  /-- failed to generate final summary: %w -/
  | finalSummary (cause : Error)
  /-- failed to write output file: %w -/
  | writeOutput (cause : String)
  /-- failed to create splitter: %w -/
  | createSplitter (cause : Error)
  /-- failed to split file: %w -/
  | splitFile (cause : Error)
  /-- API key environment variable '%s' not set -/
  | apiKeyNotSet (name : String)
  /-- failed to read analysis prompt file: %w -/
  | analysisPrompt (cause : String)
  deriving DecidableEq, Repr

/-- Outcome of running a Go function: a value with a nil error, a non-nil error
(the value is then nil or empty), a run-time panic, or no outcome at all within
the fuel given to a loop. -/
inductive Result (α : Type) where
  | ok (val : α)
  | err (e : Error)
  | panic
  | diverge
  deriving DecidableEq, Repr

namespace splitter

/-- The tiktoken codec `*tiktoken.Tiktoken`, an external library: `Encode(text, nil, nil)`
and `Decode(tokens)`.  `Decode` returns the bytes of the tokens, which need not be
valid UTF-8; texts are strings of bytes, one character per byte. -/
structure Tiktoken where
  Encode : String → List Int
  Decode : List Int → String

/-- Splitter handles splitting text into chunks based on token count. -/
structure Splitter where
  chunkSize : Int
  tkm : Tiktoken

/-- NewSplitter creates a new Splitter.  `getEncoding` is the outcome of
`tiktoken.GetEncoding("cl100k_base")`. -/
def NewSplitter (getEncoding : Except String Tiktoken) (chunkSize : Int) : Result Splitter :=
  match getEncoding with
  | .error e => .err (.encoding e)
  | .ok tkm => .ok { chunkSize := chunkSize, tkm := tkm }

/-- Encode returns the token IDs for a given text. -/
def Splitter.Encode (s : Splitter) (text : String) : List Int :=
  s.tkm.Encode text

/-- The Go slice expression `tokens[i:e]`, for `0 ≤ i ≤ e ≤ len(tokens)`. -/
def slice (tokens : List Int) (i e : Int) : List Int :=
  (tokens.drop i.toNat).take (e - i).toNat

/-- The `for i := 0; i < len(tokens); i += s.chunkSize` loop of `Split`, entered with
the current `i` and the chunks appended so far; one unit of fuel per test of the
loop condition. -/
def Splitter.splitLoop (s : Splitter) (tokens : List Int) :
    Nat → Int → List String → Result (List String)
  | 0, _, _ => .diverge
  | fuel + 1, i, chunks =>
    if i < (tokens.length : Int) then
      let e := i + s.chunkSize
      let e := if e > (tokens.length : Int) then (tokens.length : Int) else e
      -- bounds check of `tokens[i:end]`
      if 0 ≤ i ∧ i ≤ e ∧ e ≤ (tokens.length : Int) then
        Splitter.splitLoop s tokens fuel (i + s.chunkSize)
          (chunks ++ [s.tkm.Decode (slice tokens i e)])
      else .panic
    else .ok chunks

/-- Split reads from an io.Reader and returns a slice of strings, where each string
is a chunk of text with at most s.chunkSize tokens.  `reader` is what `io.ReadAll`
obtains from the reader.  With a positive chunk size the loop tests its condition
at most `len(tokens) + 1` times, which is the fuel it is run with. -/
def Splitter.Split (s : Splitter) (reader : Except String String) : Result (List String) :=
  match reader with
  | .error e => .err (.read e)
  | .ok content =>
    let tokens := s.Encode content
    s.splitLoop tokens (tokens.length + 1) 0 []

/-- A `bufio.Scanner` over the reader, seen through what `SplitJSONL` obtains from
it: the successive values of `scanner.Text()` while `scanner.Scan()` is true, and
the value of `scanner.Err()` afterwards.  The scanner is used with its default
buffer (`scanner.Buffer` is never called), so `err` is `bufio.ErrTooLong` as soon as
a line does not fit in 64 KiB, and otherwise the error of the reader, if any. -/
structure Scanner where
  lines : List String
  err : Option String

/-- The local variables of `SplitJSONL`: `chunks`, `currentChunk` (the content of
the `strings.Builder`) and `currentTokenCount`. -/
structure JSONLState where
  chunks : List String
  currentChunk : String
  currentTokenCount : Int
  deriving DecidableEq, Repr

/-- The `for scanner.Scan()` loop of `SplitJSONL` over the lines still to come.
`validJSON line` is whether `json.Unmarshal([]byte(line), &js)` returns no error. -/
def Splitter.scanLoop (s : Splitter) (validJSON : String → Bool) :
    List String → JSONLState → Result JSONLState
  | [], st => .ok st
  | line :: rest, st =>
    if validJSON line = false then .err (.invalidJSON line)
    else
      let lineTokens := s.Encode line
      let lineTokenCount := lineTokens.length
      if (lineTokenCount : Int) > s.chunkSize then .err (.lineTooLong lineTokenCount)
      else if st.currentTokenCount + (lineTokenCount : Int) > s.chunkSize then
        Splitter.scanLoop s validJSON rest
          { chunks := st.chunks ++ [st.currentChunk]
            currentChunk := line ++ "\n"
            currentTokenCount := lineTokenCount }
      else
        Splitter.scanLoop s validJSON rest
          { chunks := st.chunks
            currentChunk := st.currentChunk ++ line ++ "\n"
            currentTokenCount := st.currentTokenCount + (lineTokenCount : Int) }

/-- SplitJSONL reads a JSONL file from an io.Reader and groups lines into chunks. -/
def Splitter.SplitJSONL (s : Splitter) (validJSON : String → Bool) (scanner : Scanner) :
    Result (List String) :=
  match s.scanLoop validJSON scanner.lines
      { chunks := [], currentChunk := "", currentTokenCount := 0 } with
  | .err e => .err e
  | .panic => .panic
  | .diverge => .diverge
  | .ok st =>
    match scanner.err with
    | some e => .err (.scan e)
    | none =>
      -- Add the last chunk if it's not empty
      if st.currentChunk ≠ "" then .ok (st.chunks ++ [st.currentChunk])
      else .ok st.chunks

/-- The token count of a line as `SplitJSONL` measures it: `len(s.Encode(line))`. -/
def Splitter.lineTokens (s : Splitter) (line : String) : Nat :=
  (s.Encode line).length

/-- The sum of the token counts of the lines of a group, each measured on its own. -/
def Splitter.groupTokens (s : Splitter) (group : List String) : Nat :=
  (group.map s.lineTokens).sum

/-- The text of a group of lines: every line followed by a newline, in order. -/
def linesText : List String → String
  | [] => ""
  | line :: rest => line ++ "\n" ++ linesText rest

/-- The concatenation of a list of strings, in order. -/
def concat : List String → String
  | [] => ""
  | c :: rest => c ++ concat rest

/-- The state of `SplitJSONL` in which the groups `done` are sealed and the group
`cur` is being filled. -/
def stateOf (s : Splitter) (done : List (List String)) (cur : List String) : JSONLState :=
  { chunks := done.map linesText
    currentChunk := linesText cur
    currentTokenCount := (s.groupTokens cur : Int) }

/-- Greedy packing of consecutive groups: the earlier group could not take the first
line of the later one. -/
def Greedy (s : Splitter) (groups : List (List String)) : Prop :=
  groups.Chain' (fun g h => ∀ l ∈ h.head?, (s.groupTokens g : Int) + (s.lineTokens l : Int) > s.chunkSize)

/-- Invariant of the scanning loop of `SplitJSONL`, on the sealed groups and the
group being filled. -/
def Packed (s : Splitter) (done : List (List String)) (cur : List String) : Prop :=
  (∀ g ∈ done, g ≠ []) ∧ (cur = [] → done = []) ∧
  (∀ g ∈ done ++ [cur], (s.groupTokens g : Int) ≤ s.chunkSize) ∧
  Greedy s (done ++ [cur])

/-- A text of 140 characters, 140 tokens for `charCodec`. -/
def text140 : String := String.mk (List.replicate 140 'x')

/-- A codec with one token per character, the token being the code point; it
serves to run the definitions on concrete inputs. -/
def charCodec : Tiktoken where
  Encode := fun text => text.data.map (fun c => (c.toNat : Int))
  Decode := fun tokens => String.mk (tokens.map (fun t => Char.ofNat t.toNat))

/-- The bytes of the tokens of cl100k_base that occur below: 12 is "-", 45918 the
first two bytes E8 AA of the character U+8A9E (bytes E8 AA 9E), 252 the byte 9E,
7561 is "-a", 25 is ":", 64 is "a" and 5809 the bytes EF BF BD of U+FFFD. -/
def tokenBytes (token : Int) : String :=
  if token = 12 then "-"
  else if token = 45918 then "\xe8\xaa"
  else if token = 252 then "\x9e"
  else if token = 7561 then "-a"
  else if token = 25 then ":"
  else if token = 64 then "a"
  else if token = 5809 then "\xef\xbf\xbd"
  else ""

/-- The values of cl100k_base on the input "-", U+8A9E, "-a:" (bytes 2D E8 AA 9E 2D
61 3A) with chunk size 2: the five tokens of the input, and the three tokens that
the bytes 9E 2D 61 of its second window are measured as (of these only the number
is used).  On other texts it does not stand for cl100k_base. -/
def cl100kSample : Tiktoken where
  Encode := fun text =>
    if text = "-\xe8\xaa\x9e-a:" then [12, 45918, 252, 7561, 25]
    else if text = "\x9e-a" then [5809, 12, 64]
    else []
  Decode := fun tokens => concat (tokens.map tokenBytes)

end splitter

namespace llm

/-- The client of the LLM endpoint, seen through `Analyze`: the reply to a prompt,
which may depend on the prompts sent before it (`sent`, oldest first). -/
structure Client where
  Analyze : (sent : List String) → (prompt : String) → Except String String

end llm

namespace summarizer

/-- Add a constant for the max number of iterations. -/
def maxIterations : Nat := 10

/-- Summarizer handles the recursive summarization of text.  The fields `verbose`
and `cmd` only drive progress messages and are left out. -/
structure Summarizer where
  client : llm.Client
  splitter : splitter.Splitter
  chunkSize : Int

/-- NewSummarizer creates a new Summarizer. -/
def NewSummarizer (getEncoding : Except String splitter.Tiktoken) (client : llm.Client)
    (chunkSize : Int) : Result Summarizer :=
  match splitter.NewSplitter getEncoding chunkSize with
  | .err e => .err (.createSplitter e)
  | .panic => .panic
  | .diverge => .diverge
  | .ok s => .ok { client := client, splitter := s, chunkSize := chunkSize }

/-- The prompt sent for a text: `fmt.Sprintf("%s\n\n--- Text to Summarize ---\n%s", prompt, text)`. -/
def fullPrompt (prompt text : String) : String :=
  prompt ++ "\n\n--- Text to Summarize ---\n" ++ text

/-- The separator of `strings.Join(summaries, "\n\n---\n\n")`. -/
def separator : String := "\n\n---\n\n"

/-- The loop state of `Summarize`: the variables `currentText` and `iteration`,
and two history variables: `sent`, the prompts passed to `client.Analyze` so far
(oldest first), and `rounds`, the number of completed passes over all sub-chunks. -/
structure ReductionState where
  currentText : String
  iteration : Nat
  sent : List String
  rounds : Nat
  deriving DecidableEq, Repr

/-- What a call of `Summarize` leaves behind: the returned pair (text, error) as a
`Result`, and the loop state at the moment of return. -/
structure Run where
  result : Result String
  final : ReductionState
  deriving DecidableEq, Repr

/-- The `for i, chunk := range chunks` loop of `Summarize` over the chunks still to
come, with the summaries collected and the prompts sent so far; it stops at the
first failing `Analyze`. -/
def Summarizer.summarizeChunks (s : Summarizer) (prompt : String) :
    List String → List String → List String → Except String (List String) × List String
  | [], summaries, sent => (.ok summaries, sent)
  | chunk :: rest, summaries, sent =>
    match s.client.Analyze sent (fullPrompt prompt chunk) with
    | .error e => (.error e, sent ++ [fullPrompt prompt chunk])
    | .ok summary =>
      Summarizer.summarizeChunks s prompt rest (summaries ++ [summary])
        (sent ++ [fullPrompt prompt chunk])

/-- A final `return s.client.Analyze(ctx, fullPrompt)` over the whole current text. -/
def Summarizer.analyzeWhole (s : Summarizer) (prompt : String) (st : ReductionState) : Run :=
  let st1 := { st with sent := st.sent ++ [fullPrompt prompt st.currentText] }
  match s.client.Analyze st.sent (fullPrompt prompt st.currentText) with
  | .error e => { result := .err (.analyze e), final := st1 }
  | .ok out => { result := .ok out, final := st1 }

/-- The `for { ... }` loop of `Summarize`; one unit of fuel per pass. -/
def Summarizer.summarizeLoop (s : Summarizer) (prompt : String) : Nat → ReductionState → Run
  | 0, st => { result := .diverge, final := st }
  | fuel + 1, st =>
    if st.iteration > maxIterations then
      { result := .err (.maxIterations maxIterations), final := st }
    else
      let st := { st with iteration := st.iteration + 1 }
      let textTokens := s.splitter.Encode st.currentText
      let promptTokens := s.splitter.Encode prompt
      if ((textTokens.length : Int) + (promptTokens.length : Int)) < s.chunkSize then
        s.analyzeWhole prompt st
      else
        match s.splitter.Split (.ok st.currentText) with
        | .err e => { result := .err (.splitFailed e), final := st }
        | .panic => { result := .panic, final := st }
        | .diverge => { result := .diverge, final := st }
        | .ok chunks =>
          if chunks.length = 1 then
            s.analyzeWhole prompt st
          else
            match s.summarizeChunks prompt chunks [] st.sent with
            | (.error e, sent) =>
              { result := .err (.analyze e), final := { st with sent := sent } }
            | (.ok summaries, sent) =>
              Summarizer.summarizeLoop s prompt fuel
                { currentText := String.intercalate separator summaries
                  iteration := st.iteration
                  sent := sent
                  rounds := st.rounds + 1 }

/-- Summarize performs recursive summarization if the text is too long.  The loop
tests the cap before every pass and `iteration` grows by one per pass from 1, so
it makes at most `maxIterations + 1` tests, which is the fuel it is run with. -/
def Summarizer.Summarize (s : Summarizer) (text prompt : String) : Run :=
  s.summarizeLoop prompt (maxIterations + 1)
    { currentText := text, iteration := 1, sent := [], rounds := 0 }

/-- How one pass of the `for { ... }` loop of `Summarize` ends. -/
inductive Pass where
  /-- `iteration > maxIterations`: the max-iterations error is returned -/
  | capped
  /-- the text is small enough ("performing final analysis"): the final analysis is returned -/
  | done (run : Run)
  /-- the split returned an error, or did not return -/
  | noSplit (run : Run)
  /-- the split gave one chunk ("Cannot split further"): the analysis of the whole text is returned -/
  | stuck (run : Run)
  /-- the analysis of a sub-chunk failed: its error is returned -/
  | failed (run : Run)
  /-- every sub-chunk is summarized: the loop goes on with the joined summaries -/
  | again (next : ReductionState)
  deriving DecidableEq, Repr

/-- The body of the loop of `Summarize` from the result of
`s.splitter.Split(strings.NewReader(currentText))` on, `iteration` being
incremented already. -/
def Summarizer.afterSplit (s : Summarizer) (prompt : String) (st : ReductionState) :
    Result (List String) → Pass
  | .err e => .noSplit { result := .err (.splitFailed e), final := st }
  | .panic => .noSplit { result := .panic, final := st }
  | .diverge => .noSplit { result := .diverge, final := st }
  | .ok chunks =>
    if chunks.length = 1 then
      .stuck (s.analyzeWhole prompt st)
    else
      match s.summarizeChunks prompt chunks [] st.sent with
      | (.error e, sent) =>
        .failed { result := .err (.analyze e), final := { st with sent := sent } }
      | (.ok summaries, sent) =>
        .again
          { currentText := String.intercalate separator summaries
            iteration := st.iteration
            sent := sent
            rounds := st.rounds + 1 }

/-- One pass of the `for { ... }` loop of `Summarize`, from the test of the cap to
the return or to the end of the body, with the exit taken. -/
def Summarizer.pass (s : Summarizer) (prompt : String) (st : ReductionState) : Pass :=
  if st.iteration > maxIterations then .capped
  else
    let st := { st with iteration := st.iteration + 1 }
    let textTokens := s.splitter.Encode st.currentText
    let promptTokens := s.splitter.Encode prompt
    if ((textTokens.length : Int) + (promptTokens.length : Int)) < s.chunkSize then
      .done (s.analyzeWhole prompt st)
    else
      s.afterSplit prompt st (s.splitter.Split (.ok st.currentText))

/-- The loop of `Summarize` as the repetition of `pass`; one unit of fuel per pass. -/
def Summarizer.passes (s : Summarizer) (prompt : String) : Nat → ReductionState → Run
  | 0, st => { result := .diverge, final := st }
  | fuel + 1, st =>
    match s.pass prompt st with
    | .capped => { result := .err (.maxIterations maxIterations), final := st }
    | .done run => run
    | .noSplit run => run
    | .stuck run => run
    | .failed run => run
    | .again next => Summarizer.passes s prompt fuel next

/-- A client that answers every prompt with the text "a". -/
def constClient : llm.Client where
  Analyze := fun _ _ => .ok "a"

/-- A summarizer over `constClient` with the character codec and budget 5. -/
def constSummarizer : Summarizer where
  client := constClient
  splitter := { chunkSize := 5, tkm := splitter.charCodec }
  chunkSize := 5

/-- A summarizer over `constClient` with the character codec and budget 12. -/
def wideSummarizer : Summarizer where
  client := constClient
  splitter := { chunkSize := 12, tkm := splitter.charCodec }
  chunkSize := 12

end summarizer

namespace config

/-- EndpointConfig defines the configuration for a single LLM endpoint. -/
structure EndpointConfig where
  Name : String
  EndpointURL : String
  APIKeyEnv : String
  Model : String
  ContextWindowSize : Int
  ChunkSize : Int

end config

namespace cmd

/-- The regular files of the temporary directory: name and content, names distinct. -/
abbrev Dir := List (String × String)

/-- Go's `<` on strings, on the characters of both: the byte-wise order, a
character being a byte. -/
def lessChars : List Char → List Char → Bool
  | [], [] => false
  | [], _ :: _ => true
  | _ :: _, [] => false
  | a :: as, b :: bs =>
    if a.toNat < b.toNat then true
    else if b.toNat < a.toNat then false
    else lessChars as bs

/-- Order of two file names in a directory listing: `a` does not come after `b`. -/
def nameLE (a b : String) : Bool := !lessChars b.data a.data

/-- The call `os.WriteFile(filepath.Join(workDir, name), content, 0644)` when it
succeeds: the file is created, or truncated and rewritten. -/
def writeFile (d : Dir) (name content : String) : Dir :=
  if d.any (fun f => f.1 == name) then
    d.map (fun f => if f.1 == name then (name, content) else f)
  else d ++ [(name, content)]

/-- The names returned by `os.ReadDir(workDir)`: all entries, sorted by filename. -/
def readDir (d : Dir) : List String :=
  (d.map Prod.fst).insertionSort (fun a b => nameLE a b = true)

/-- The name of the result file of a chunk: `fmt.Sprintf("chunk_%d.txt", chunkIndex+1)`. -/
def resultFile (chunkIndex : Nat) : String :=
  "chunk_" ++ toString (chunkIndex + 1) ++ ".txt"

/-- Everything `RunE` obtains from outside the repository from step 5 on. -/
structure World where
  /-- outcome of `tiktoken.GetEncoding("cl100k_base")` -/
  getEncoding : Except String splitter.Tiktoken
  /-- whether `json.Unmarshal` accepts a line -/
  validJSON : String → Bool
  /-- the input file as `io.ReadAll` reads it -/
  inputAll : Except String String
  /-- the input file as a `bufio.Scanner` reads it -/
  inputLines : splitter.Scanner
  /-- value of `os.Getenv(endpointConf.APIKeyEnv)` -/
  apiKey : String
  /-- outcome of `os.ReadFile(analysisPromptFile)` -/
  analysisPrompt : Except String String
  /-- outcome of `client.Analyze` in the goroutine of a chunk index, for its prompt -/
  analyzeChunk : Nat → String → Except String String
  /-- chunk indices in the order in which their goroutines finish -/
  schedule : List Nat
  /-- error of `os.WriteFile` for a result file name, if it fails -/
  writeResultErr : String → Option String
  /-- content of `workDir` before the analysis (empty when made by `os.MkdirTemp`) -/
  workDir : Dir
  /-- error of `os.ReadDir(workDir)`, if it fails -/
  readDirErr : Option String
  /-- error of `os.ReadFile` for an intermediate file name, if it fails -/
  readFileErr : String → Option String
  /-- outcome of `os.ReadFile(summaryPromptFile)` -/
  summaryPrompt : Except String String
  /-- the client as the summarizer uses it, after the analysis -/
  client : llm.Client
  /-- the flag `--output` -/
  outputFile : String
  /-- error of `os.WriteFile(outputFile, ...)`, if it fails -/
  writeOutputErr : Option String

/-- State shared by the goroutines of step 8: the buffered `errorChan` (oldest
first) and the temporary directory. -/
structure Shared where
  errorChan : List Error
  dir : Dir

/-- The prompt of a chunk: `fmt.Sprintf("%s\n\n---\n%s", analysisPrompt, chunkText)`. -/
def chunkPrompt (analysisPrompt chunkText : String) : String :=
  analysisPrompt ++ "\n\n---\n" ++ chunkText

/-- The goroutine `go func(chunkIndex int, chunkText string)` of step 8, as its
effect on the shared state when it finishes. -/
def worker (w : World) (analysisPrompt : String) (chunkIndex : Nat) (chunkText : String)
    (sh : Shared) : Shared :=
  match w.analyzeChunk chunkIndex (chunkPrompt analysisPrompt chunkText) with
  | .error e =>
    { sh with errorChan := sh.errorChan ++ [.chunkAnalysis (chunkIndex + 1) e] }
  | .ok result =>
    -- Save result to temporary file
    match w.writeResultErr (resultFile chunkIndex) with
    | some e => { sh with errorChan := sh.errorChan ++ [.chunkWrite (chunkIndex + 1) e] }
    | none => { sh with dir := writeFile sh.dir (resultFile chunkIndex) result }

/-- Step 8 up to `wg.Wait()`: one goroutine per chunk, finishing in the order of
the indices listed. -/
def analyzeAll (w : World) (analysisPrompt : String) (chunks : List String) :
    List Nat → Shared → Shared
  | [], sh => sh
  | i :: rest, sh =>
    match chunks.get? i with
    | none => analyzeAll w analysisPrompt chunks rest sh
    | some chunkText =>
      analyzeAll w analysisPrompt chunks rest (worker w analysisPrompt i chunkText sh)

/-- The loop `for _, file := range files` of step 9 over the names still to come,
appending each content and the separator to `combinedResults`. -/
def combineFiles (w : World) (d : Dir) : List String → String → Result String
  | [], combined => .ok combined
  | name :: rest, combined =>
    match w.readFileErr name, d.lookup name with
    | some e, _ => .err (.readIntermediate name e)
    | none, none => .err (.readIntermediate name "file does not exist")
    | none, some content => combineFiles w d rest (combined ++ content ++ "\n\n---\n\n")

/-- What a run of `RunE` leaves behind. -/
structure Outcome where
  /-- the error returned (`ok ()` is nil) -/
  result : Result Unit
  /-- the chunks the input was split into, if the split succeeded -/
  chunks : Option (List String)
  /-- the temporary directory -/
  dir : Dir
  /-- the text handed to `Summarize`, if it was called -/
  combined : Option String
  /-- the prompts the summarizer sent -/
  summarizerSent : List String
  /-- the content written to the output file, if any -/
  written : Option String
  /-- the lines printed with `cmd.Println` in step 10 -/
  printed : List String

/-- Step 5 of `RunE`: create the splitter and split the file. -/
def splitInput (w : World) (endpointConf : config.EndpointConfig) (isJSONL : Bool) :
    Result (List String) :=
  match splitter.NewSplitter w.getEncoding endpointConf.ChunkSize with
  | .err e => .err (.createSplitter e)
  | .panic => .panic
  | .diverge => .diverge
  | .ok s =>
    match (if isJSONL then s.SplitJSONL w.validJSON w.inputLines else s.Split w.inputAll) with
    | .err e => .err (.splitFile e)
    | .panic => .panic
    | .diverge => .diverge
    | .ok chunks => .ok chunks

/-- Steps 9 and 10 of `RunE`, entered once all chunks are analyzed without error:
combine the results, summarize and output. -/
def combineAndSummarize (w : World) (endpointConf : config.EndpointConfig)
    (chunks : List String) (d : Dir) : Outcome :=
  let stop (r : Result Unit) : Outcome :=
    { result := r, chunks := some chunks, dir := d, combined := none, summarizerSent := [],
      written := none, printed := [] }
  match w.readDirErr with
  | some e => stop (.err (.readDir e))
  | none =>
    match combineFiles w d (readDir d) "" with
    | .err e => stop (.err e)
    | .panic => stop .panic
    | .diverge => stop .diverge
    | .ok combinedResults =>
      match w.summaryPrompt with
      | .error e => stop (.err (.summaryPrompt e))
      | .ok summaryPrompt =>
        match summarizer.NewSummarizer w.getEncoding w.client endpointConf.ContextWindowSize with
        | .err e => stop (.err (.createSummarizer e))
        | .panic => stop .panic
        | .diverge => stop .diverge
        | .ok sm =>
          let run := sm.Summarize combinedResults summaryPrompt
          let after (r : Result Unit) (written : Option String) (printed : List String) :
              Outcome :=
            { result := r, chunks := some chunks, dir := d, combined := some combinedResults,
              summarizerSent := run.final.sent, written := written, printed := printed }
          match run.result with
          | .err e => after (.err (.finalSummary e)) none []
          | .panic => after .panic none []
          | .diverge => after .diverge none []
          | .ok finalResult =>
            -- 10. Output final result
            if w.outputFile ≠ "" then
              match w.writeOutputErr with
              | some e => after (.err (.writeOutput e)) none []
              | none => after (.ok ()) (some finalResult) []
            else after (.ok ()) none ["\n--- Final Summary ---", finalResult]

/-- The function `RunE` of the root command from step 5 on (steps 1 to 4, loading
the configuration, selecting the endpoint, creating the temporary directory and
opening the input, have succeeded).  Progress messages are left out. -/
def RunE (w : World) (endpointConf : config.EndpointConfig) (isJSONL : Bool) : Outcome :=
  let stop (r : Result Unit) (chunks : Option (List String)) (d : Dir) : Outcome :=
    { result := r, chunks := chunks, dir := d, combined := none, summarizerSent := [],
      written := none, printed := [] }
  match splitInput w endpointConf isJSONL with
  | .err e => stop (.err e) none w.workDir
  | .panic => stop .panic none w.workDir
  | .diverge => stop .diverge none w.workDir
  | .ok chunks =>
    -- 6. Create LLM client
    if w.apiKey = "" then stop (.err (.apiKeyNotSet endpointConf.APIKeyEnv)) (some chunks) w.workDir
    else
      -- 7. Read analysis prompt
      match w.analysisPrompt with
      | .error e => stop (.err (.analysisPrompt e)) (some chunks) w.workDir
      | .ok analysisPrompt =>
        -- 8. Analyze all chunks in parallel
        let sh := analyzeAll w analysisPrompt chunks w.schedule
          { errorChan := [], dir := w.workDir }
        -- Check for errors during chunk analysis
        match sh.errorChan with
        | e :: _ => stop (.err e) (some chunks) sh.dir
        | [] => combineAndSummarize w endpointConf chunks sh.dir

/-- An endpoint with chunk size 1 and context window 1000. -/
def demoConf : config.EndpointConfig where
  Name := "test-endpoint"
  EndpointURL := "http://localhost"
  APIKeyEnv := "TEST_API_KEY"
  Model := "test-model"
  ContextWindowSize := 1000
  ChunkSize := 1

/-- A run over a plain-text input in a fresh temporary directory, with the
character codec: chunk `k` (counted from 1) is analyzed to the text "r" followed by
`k`, no call of the operating system fails, and the goroutines finish in the order
given. -/
def demoWorld (input : String) (schedule : List Nat) : World where
  getEncoding := .ok splitter.charCodec
  validJSON := fun _ => true
  inputAll := .ok input
  inputLines := { lines := [input], err := none }
  apiKey := "dummy-key"
  analysisPrompt := .ok "Analyze this:"
  analyzeChunk := fun chunkIndex _ => .ok ("r" ++ toString (chunkIndex + 1))
  schedule := schedule
  writeResultErr := fun _ => none
  workDir := []
  readDirErr := none
  readFileErr := fun _ => none
  summaryPrompt := .ok "Summarize:"
  client := summarizer.constClient
  outputFile := ""
  writeOutputErr := none

/-- The run `demoWorld` in which the analysis of chunk `failing` (counted from 1)
fails and all others succeed. -/
def failWorld (input : String) (failing : Nat) (schedule : List Nat) : World where
  getEncoding := .ok splitter.charCodec
  validJSON := fun _ => true
  inputAll := .ok input
  inputLines := { lines := [input], err := none }
  apiKey := "dummy-key"
  analysisPrompt := .ok "Analyze this:"
  analyzeChunk := fun chunkIndex _ =>
    if chunkIndex + 1 = failing then .error "received non-200 status code: 500"
    else .ok ("r" ++ toString (chunkIndex + 1))
  schedule := schedule
  writeResultErr := fun _ => none
  workDir := []
  readDirErr := none
  readFileErr := fun _ => none
  summaryPrompt := .ok "Summarize:"
  client := summarizer.constClient
  outputFile := ""
  writeOutputErr := none

end cmd

namespace splitter

/-- Slicing `tokens[k:e]` where `e` is `k + n` clamped to the length is taking
`n` tokens after dropping `k`. -/
theorem slice_clamped (tokens : List Int) (k n : Nat) :
    slice tokens (k : Int)
      (if ((k : Int) + (n : Int)) > (tokens.length : Int) then (tokens.length : Int)
        else (k : Int) + (n : Int)) = (tokens.drop k).take n := by
  unfold slice
  split
  · next h =>
    have h1 : ((tokens.length : Int) - (k : Int)).toNat = tokens.length - k := by omega
    simp only [Int.toNat_ofNat, h1]
    rw [List.take_of_length_le (by simp), List.take_of_length_le (by simp; omega)]
  · next h =>
    have h1 : ((k : Int) + (n : Int) - (k : Int)).toNat = n := by omega
    simp only [Int.toNat_ofNat, h1]

/-- Loop invariant of `Split` for a positive chunk size `n`: entered at index `k`
with enough fuel, the loop returns the chunks it was entered with followed by the
decoded windows of `tokens[k:]`, which are consecutive, full except possibly the
last, and `⌈(len - k) / n⌉` in number. -/
theorem splitLoop_windows (s : Splitter) (tokens : List Int) (n : Nat) (hn : 0 < n)
    (hcs : s.chunkSize = (n : Int)) :
    ∀ (fuel k : Nat) (chunks : List String), tokens.length - k < fuel →
      ∃ ws : List (List Int),
        s.splitLoop tokens fuel (k : Int) chunks = .ok (chunks ++ ws.map s.tkm.Decode) ∧
        ws.flatten = tokens.drop k ∧
        (∀ w ∈ ws.dropLast, w.length = n) ∧
        (∀ w ∈ ws.getLast?, 1 ≤ w.length ∧ w.length ≤ n) ∧
        ws.length = (tokens.length - k + n - 1) / n := by
  intro fuel
  induction fuel with
  | zero => intro k chunks h; omega
  | succ fuel ih =>
    intro k chunks hfuel
    by_cases hk : k < tokens.length
    · have hk' : (k : Int) < (tokens.length : Int) := by exact_mod_cast hk
      obtain ⟨ws, hrun, hjoin, hfull, hlast, hlen⟩ :=
        ih (k + n) (chunks ++ [s.tkm.Decode ((tokens.drop k).take n)]) (by omega)
      have hwlen : ((tokens.drop k).take n).length = min n (tokens.length - k) := by simp
      refine ⟨(tokens.drop k).take n :: ws, ?_, ?_, ?_, ?_, ?_⟩
      · unfold Splitter.splitLoop
        rw [if_pos hk', hcs]
        simp only []
        rw [slice_clamped, if_pos]
        · have : (k : Int) + (n : Int) = ((k + n : Nat) : Int) := by push_cast; rfl
          rw [this, hrun]
          simp
        · split <;> omega
      · have hdd : tokens.drop (k + n) = (tokens.drop k).drop n := by
          rw [List.drop_drop, Nat.add_comm]
        rw [List.flatten_cons, hjoin, hdd, List.take_append_drop]
      · cases ws with
        | nil => simp
        | cons w ws =>
          have hpos : 0 < (tokens.length - (k + n) + n - 1) / n := by
            rw [← hlen]; simp
          have hge : n ≤ tokens.length - (k + n) + n - 1 := by
            by_contra hlt
            rw [Nat.div_eq_of_lt (by omega)] at hpos
            omega
          intro x hx
          rw [List.dropLast_cons₂, List.mem_cons] at hx
          rcases hx with rfl | hx
          · rw [hwlen]; omega
          · exact hfull x hx
      · cases ws with
        | nil =>
          intro x hx
          simp only [List.getLast?_singleton, Option.mem_def, Option.some.injEq] at hx
          subst hx
          rw [hwlen]; omega
        | cons w ws =>
          intro x hx
          rw [List.getLast?_cons_cons] at hx
          exact hlast x hx
      · rw [List.length_cons, hlen]
        by_cases hd : n ≤ tokens.length - k
        · have : tokens.length - k + n - 1 = (tokens.length - (k + n) + n - 1) + n := by omega
          rw [this, Nat.add_div_right _ hn]
        · have h1 : (tokens.length - (k + n) + n - 1) / n = 0 :=
            Nat.div_eq_of_lt (by omega)
          have h2 : (tokens.length - k + n - 1) / n = 1 := by
            have : tokens.length - k + n - 1 = (tokens.length - k - 1) + n := by omega
            rw [this, Nat.add_div_right _ hn, Nat.div_eq_of_lt (by omega)]
          rw [h1, h2]
    · have hk' : ¬ (k : Int) < (tokens.length : Int) := by exact_mod_cast hk
      refine ⟨[], ?_, ?_, ?_, ?_, ?_⟩
      · unfold Splitter.splitLoop
        rw [if_neg hk']
        simp
      · simp [List.drop_eq_nil_of_le (Nat.le_of_not_lt hk)]
      · simp
      · simp
      · have : tokens.length - k + n - 1 = n - 1 := by omega
        rw [this, Nat.div_eq_of_lt (by omega)]
        rfl

end splitter

namespace splitter

/-- The integer formula `(N + n - 1) / n` is the ceiling of the quotient `N / n`. -/
theorem ceil_div_formula (N n : Nat) (hn : 0 < n) :
    ⌈(N : ℚ) / (n : ℚ)⌉ = (((N + n - 1) / n : Nat) : Int) := by
  have hnq : (0 : ℚ) < (n : ℚ) := by exact_mod_cast hn
  have h1 : (N + n - 1) / n * n ≤ N + n - 1 := Nat.div_mul_le_self _ _
  have h2 : N + n - 1 < ((N + n - 1) / n + 1) * n := by
    have := Nat.lt_div_mul_add (a := N + n - 1) hn
    rw [Nat.add_mul, Nat.one_mul]; exact this
  set m := (N + n - 1) / n with hm
  rw [Int.ceil_eq_iff]
  constructor
  · rw [lt_div_iff₀ hnq]
    have h3 : ((m : Int) - 1) * (n : Int) < (N : Int) := by
      have h1' : (m : Int) * (n : Int) ≤ (N : Int) + (n : Int) - 1 := by
        have : ((m * n : Nat) : Int) ≤ ((N + n - 1 : Nat) : Int) := by exact_mod_cast h1
        rw [Nat.cast_mul] at this
        omega
      nlinarith
    have : (((m : Int) - 1) * (n : Int) : ℚ) < ((N : Int) : ℚ) := by exact_mod_cast h3
    simpa using this
  · rw [div_le_iff₀ hnq]
    have h3 : N ≤ m * n := by
      rw [Nat.add_mul, Nat.one_mul] at h2
      omega
    exact_mod_cast h3

/-- With a positive chunk size, `Split` of a text returns the decoded windows of
its encoding: consecutive, full except possibly the last, `⌈N / n⌉` in number. -/
theorem Split_spec (s : Splitter) (T : String) (n : Nat) (hn : 0 < n)
    (hcs : s.chunkSize = (n : Int)) :
    ∃ ws : List (List Int),
      s.Split (.ok T) = .ok (ws.map s.tkm.Decode) ∧
      ws.flatten = s.Encode T ∧
      (∀ w ∈ ws.dropLast, w.length = n) ∧
      (∀ w ∈ ws.getLast?, 1 ≤ w.length ∧ w.length ≤ n) ∧
      ws.length = ((s.Encode T).length + n - 1) / n := by
  obtain ⟨ws, hrun, hjoin, hfull, hlast, hlen⟩ :=
    splitLoop_windows s (s.Encode T) n hn hcs ((s.Encode T).length + 1) 0 [] (by omega)
  refine ⟨ws, ?_, ?_, hfull, hlast, ?_⟩
  · simpa [Splitter.Split] using hrun
  · simpa using hjoin
  · simpa using hlen

/-- C1: for every input text `T` and every positive chunk size, `Split` returns the
decodings, in order, of consecutive windows of `encode(T)`: the windows concatenated
in order are `encode(T)`, every window but the last has exactly `chunkSize` tokens,
the last has between 1 and `chunkSize` tokens, and chunk `i` is the decoding of
window `i`. -/
theorem Split_windows (s : Splitter) (T : String) (h : 0 < s.chunkSize) :
    ∃ ws : List (List Int),
      s.Split (.ok T) = .ok (ws.map s.tkm.Decode) ∧
      ws.flatten = s.Encode T ∧
      (∀ w ∈ ws.dropLast, (w.length : Int) = s.chunkSize) ∧
      (∀ w ∈ ws.getLast?, 1 ≤ w.length ∧ (w.length : Int) ≤ s.chunkSize) := by
  have hcs : s.chunkSize = ((s.chunkSize.toNat : Nat) : Int) := by omega
  obtain ⟨ws, hrun, hjoin, hfull, hlast, -⟩ :=
    Split_spec s T s.chunkSize.toNat (by omega) hcs
  refine ⟨ws, hrun, hjoin, ?_, ?_⟩
  · intro w hw
    rw [hcs, hfull w hw]
  · intro w hw
    obtain ⟨h1, h2⟩ := hlast w hw
    exact ⟨h1, by omega⟩

/-- Instance of `Split_windows`: seven tokens in windows of three. -/
theorem Split_windows_witness :
    ((0 : Int) < (Splitter.mk 3 charCodec).chunkSize) ∧
    (Splitter.mk 3 charCodec).Split (.ok "chunked") = .ok ["chu", "nke", "d"] ∧
    ∃ ws : List (List Int),
      (Splitter.mk 3 charCodec).Split (.ok "chunked") =
        .ok (ws.map (Splitter.mk 3 charCodec).tkm.Decode) ∧
      ws.flatten = (Splitter.mk 3 charCodec).Encode "chunked" ∧
      (∀ w ∈ ws.dropLast, (w.length : Int) = (Splitter.mk 3 charCodec).chunkSize) ∧
      (∀ w ∈ ws.getLast?, 1 ≤ w.length ∧ (w.length : Int) ≤ (Splitter.mk 3 charCodec).chunkSize) :=
  ⟨by decide, by decide, Split_windows (Splitter.mk 3 charCodec) "chunked" (by decide)⟩

/-- C2: for every input text `T` with `N` tokens and every positive chunk size,
`Split` returns exactly `⌈N / chunkSize⌉` chunks, none when `N = 0`; with 140 tokens
and chunk size 100 it returns exactly two chunks, the decodings of the first 100
tokens and of the remaining 40. -/
theorem Split_count (s : Splitter) (T : String) (h : 0 < s.chunkSize) :
    ∃ chunks : List String,
      s.Split (.ok T) = .ok chunks ∧
      (chunks.length : Int) = ⌈((s.Encode T).length : ℚ) / (s.chunkSize : ℚ)⌉ ∧
      ((s.Encode T).length = 0 → chunks = []) ∧
      ((s.Encode T).length = 140 → s.chunkSize = 100 →
        chunks = [s.tkm.Decode ((s.Encode T).take 100), s.tkm.Decode ((s.Encode T).drop 100)] ∧
        ((s.Encode T).take 100).length = 100 ∧ ((s.Encode T).drop 100).length = 40) := by
  have hcs : s.chunkSize = ((s.chunkSize.toNat : Nat) : Int) := by omega
  have hn : 0 < s.chunkSize.toNat := by omega
  obtain ⟨ws, hrun, hjoin, hfull, hlast, hlen⟩ := Split_spec s T s.chunkSize.toNat hn hcs
  refine ⟨ws.map s.tkm.Decode, hrun, ?_, ?_, ?_⟩
  · have hc := ceil_div_formula (s.Encode T).length s.chunkSize.toNat hn
    rw [List.length_map, hlen]
    have hq : (s.chunkSize : ℚ) = ((s.chunkSize.toNat : Nat) : ℚ) := by
      have : (s.chunkSize : ℚ) = (((s.chunkSize.toNat : Nat) : Int) : ℚ) := by rw [← hcs]
      rw [this]; norm_cast
    rw [hq, hc]
  · intro h0
    have : ws.length = 0 := by
      rw [hlen, h0, Nat.zero_add]
      exact Nat.div_eq_of_lt (by omega)
    rw [List.length_eq_zero] at this
    rw [this]; rfl
  · intro h140 h100
    have hn100 : s.chunkSize.toNat = 100 := by omega
    rw [hn100] at hfull hlen
    rw [h140] at hlen
    have hlen2 : ws.length = 2 := by rw [hlen]
    match ws, hlen2, hjoin, hfull with
    | [w1, w2], _, hjoin, hfull =>
      have hw1 : w1.length = 100 := hfull w1 (by simp)
      have hj : w1 ++ w2 = s.Encode T := by simpa using hjoin
      have ht : (s.Encode T).take 100 = w1 := by
        rw [← hj, ← hw1, List.take_left']
        rfl
      have hd : (s.Encode T).drop 100 = w2 := by
        rw [← hj, ← hw1, List.drop_left']
        rfl
      refine ⟨by rw [ht, hd]; rfl, ?_, ?_⟩
      · rw [ht, hw1]
      · rw [List.length_drop, h140]

set_option maxRecDepth 100000 in
/-- Instance of `Split_count`: a text of 140 tokens with chunk size 100. -/
theorem Split_count_witness :
    ((0 : Int) < (Splitter.mk 100 charCodec).chunkSize) ∧
    ((Splitter.mk 100 charCodec).Encode text140).length = 140 ∧
    ∃ chunks : List String,
      (Splitter.mk 100 charCodec).Split (.ok text140) = .ok chunks ∧
      (chunks.length : Int) =
        ⌈(((Splitter.mk 100 charCodec).Encode text140).length : ℚ) /
          ((Splitter.mk 100 charCodec).chunkSize : ℚ)⌉ ∧
      (((Splitter.mk 100 charCodec).Encode text140).length = 0 → chunks = []) ∧
      (((Splitter.mk 100 charCodec).Encode text140).length = 140 →
        (Splitter.mk 100 charCodec).chunkSize = 100 →
        chunks = [(Splitter.mk 100 charCodec).tkm.Decode
            (((Splitter.mk 100 charCodec).Encode text140).take 100),
          (Splitter.mk 100 charCodec).tkm.Decode
            (((Splitter.mk 100 charCodec).Encode text140).drop 100)] ∧
        (((Splitter.mk 100 charCodec).Encode text140).take 100).length = 100 ∧
        (((Splitter.mk 100 charCodec).Encode text140).drop 100).length = 40) :=
  ⟨by decide, by decide, Split_count (Splitter.mk 100 charCodec) text140 (by decide)⟩

/-- With chunk size 0 the loop of `Split` over a nonempty token sequence never
ends: it gives no outcome, whatever the fuel. -/
theorem splitLoop_zero_diverges (s : Splitter) (tokens : List Int) (h0 : s.chunkSize = 0)
    (hne : tokens ≠ []) :
    ∀ (fuel : Nat) (chunks : List String), s.splitLoop tokens fuel 0 chunks = .diverge := by
  have hlen : (0 : Int) < (tokens.length : Int) := by
    have := List.length_pos.2 hne
    omega
  intro fuel
  induction fuel with
  | zero => intro chunks; rfl
  | succ fuel ih =>
    intro chunks
    have hng : ¬ ((0 : Int) > (tokens.length : Int)) := by omega
    rw [Splitter.splitLoop, if_pos hlen]
    simp only [h0, add_zero, hng, if_false, le_refl, true_and]
    rw [if_pos (by omega)]
    exact ih _

/-- With chunk size 0 `Split` of a text with at least one token gives no outcome. -/
theorem Split_zero_diverges (s : Splitter) (T : String) (h0 : s.chunkSize = 0)
    (hne : s.Encode T ≠ []) : s.Split (.ok T) = .diverge := by
  unfold Splitter.Split
  exact splitLoop_zero_diverges s (s.Encode T) h0 hne _ _

/-- A text without tokens is split into no chunks, whatever the chunk size. -/
theorem Split_empty (s : Splitter) (T : String) (h : s.Encode T = []) :
    s.Split (.ok T) = .ok [] := by
  simp [Splitter.Split, h, Splitter.splitLoop]

/-- With a negative chunk size `Split` of a text with at least one token panics on
its first slice expression. -/
theorem Split_negative_panics (s : Splitter) (T : String) (h : s.chunkSize < 0)
    (hne : s.Encode T ≠ []) : s.Split (.ok T) = .panic := by
  have hlen : (0 : Int) < ((s.Encode T).length : Int) := by
    have := List.length_pos.2 hne
    omega
  unfold Splitter.Split
  simp only []
  have hng : ¬ (s.chunkSize > ((s.Encode T).length : Int)) := by omega
  rw [Splitter.splitLoop, if_pos hlen]
  simp only [zero_add, hng, if_false]
  rw [if_neg (by omega)]

end splitter

namespace splitter

theorem linesText_append (g h : List String) :
    linesText (g ++ h) = linesText g ++ linesText h := by
  induction g with
  | nil => simp [linesText]
  | cons l g ih => simp [linesText, ih, String.append_assoc]

theorem linesText_snoc (g : List String) (line : String) :
    linesText (g ++ [line]) = linesText g ++ line ++ "\n" := by
  rw [linesText_append]
  simp [linesText, String.append_assoc]

theorem linesText_ne_empty (line : String) (rest : List String) :
    linesText (line :: rest) ≠ "" := by
  intro h
  have := congrArg String.length h
  simp only [linesText, String.length_append] at this
  have h1 : "\n".length = 1 := rfl
  have h0 : "".length = 0 := rfl
  omega

theorem concat_append (a b : List String) : concat (a ++ b) = concat a ++ concat b := by
  induction a with
  | nil => simp [concat]
  | cons c a ih => simp [concat, ih, String.append_assoc]

theorem concat_map_linesText (groups : List (List String)) :
    concat (groups.map linesText) = linesText groups.flatten := by
  induction groups with
  | nil => simp [concat, linesText]
  | cons g groups ih => simp [concat, ih, linesText_append]

theorem groupTokens_snoc (s : Splitter) (g : List String) (line : String) :
    s.groupTokens (g ++ [line]) = s.groupTokens g + s.lineTokens line := by
  simp [Splitter.groupTokens]

/-- One pass of the scanning loop over a valid line within the budget. -/
theorem scanLoop_cons (s : Splitter) (validJSON : String → Bool) (line : String)
    (rest : List String) (st : JSONLState) (hv : validJSON line = true)
    (hb : (s.lineTokens line : Int) ≤ s.chunkSize) :
    s.scanLoop validJSON (line :: rest) st =
      s.scanLoop validJSON rest
        (if st.currentTokenCount + (s.lineTokens line : Int) ≤ s.chunkSize then
          { chunks := st.chunks
            currentChunk := st.currentChunk ++ line ++ "\n"
            currentTokenCount := st.currentTokenCount + (s.lineTokens line : Int) }
        else
          { chunks := st.chunks ++ [st.currentChunk]
            currentChunk := line ++ "\n"
            currentTokenCount := (s.lineTokens line : Int) }) := by
  have hb' : ¬ ((s.Encode line).length : Int) > s.chunkSize := by
    simpa [Splitter.lineTokens] using hb
  rw [Splitter.scanLoop]
  simp only [hv, Bool.true_eq_false, if_false, hb']
  by_cases hj : st.currentTokenCount + (s.lineTokens line : Int) ≤ s.chunkSize
  · have hj' : ¬ st.currentTokenCount + ((s.Encode line).length : Int) > s.chunkSize := by
      simpa [Splitter.lineTokens] using hj
    rw [if_neg hj', if_pos hj]
    rfl
  · have hj' : st.currentTokenCount + ((s.Encode line).length : Int) > s.chunkSize := by
      simpa [Splitter.lineTokens] using hj
    rw [if_pos hj', if_neg hj]
    rfl

/-- The scanning loop over valid lines within the budget keeps the packing invariant
and distributes the lines, in order, over the groups. -/
theorem scanLoop_packed (s : Splitter) (validJSON : String → Bool) :
    ∀ (rest : List String) (done : List (List String)) (cur : List String),
      (∀ l ∈ rest, validJSON l = true ∧ (s.lineTokens l : Int) ≤ s.chunkSize) →
      Packed s done cur →
      ∃ done1 cur1, s.scanLoop validJSON rest (stateOf s done cur) = .ok (stateOf s done1 cur1) ∧
        Packed s done1 cur1 ∧ done1.flatten ++ cur1 = done.flatten ++ cur ++ rest := by
  intro rest
  induction rest with
  | nil =>
    intro done cur _ hp
    exact ⟨done, cur, by simp [Splitter.scanLoop], hp, by simp⟩
  | cons line rest ih =>
    intro done cur hall hp
    obtain ⟨hv, hb⟩ := hall line (List.mem_cons_self _ _)
    have hrest : ∀ l ∈ rest, validJSON l = true ∧ (s.lineTokens l : Int) ≤ s.chunkSize :=
      fun l hl => hall l (List.mem_cons_of_mem _ hl)
    obtain ⟨hne, hcur, hle, hgr⟩ := hp
    rw [scanLoop_cons s validJSON line rest _ hv hb]
    by_cases hj : (s.groupTokens cur : Int) + (s.lineTokens line : Int) ≤ s.chunkSize
    · -- the line joins the current group
      have hst : (if (stateOf s done cur).currentTokenCount + (s.lineTokens line : Int)
            ≤ s.chunkSize then
          ({ chunks := (stateOf s done cur).chunks
             currentChunk := (stateOf s done cur).currentChunk ++ line ++ "\n"
             currentTokenCount :=
              (stateOf s done cur).currentTokenCount + (s.lineTokens line : Int) } : JSONLState)
        else
          { chunks := (stateOf s done cur).chunks ++ [(stateOf s done cur).currentChunk]
            currentChunk := line ++ "\n"
            currentTokenCount := (s.lineTokens line : Int) }) =
          stateOf s done (cur ++ [line]) := by
        simp only [stateOf]
        rw [if_pos hj, linesText_snoc, groupTokens_snoc]
        push_cast
        rfl
      rw [hst]
      have hp1 : Packed s done (cur ++ [line]) := by
        refine ⟨hne, by simp, ?_, ?_⟩
        · intro g hg
          rw [List.mem_append, List.mem_singleton] at hg
          rcases hg with hg | rfl
          · exact hle g (by simp [hg])
          · rw [groupTokens_snoc]; push_cast; exact hj
        · unfold Greedy at hgr ⊢
          rw [List.chain'_append] at hgr ⊢
          refine ⟨hgr.1, by simp, ?_⟩
          intro x hx y hy
          simp only [List.head?_cons, Option.mem_def, Option.some.injEq] at hy
          subst hy
          have hdone : done ≠ [] := by
            intro h; rw [h] at hx; simp at hx
          have hcne : cur ≠ [] := fun h => hdone (hcur h)
          intro l hl
          rw [List.head?_append_of_ne_nil _ hcne] at hl
          exact hgr.2.2 x hx cur (by simp) l hl
      obtain ⟨done1, cur1, hrun, hp2, hfl⟩ := ih done (cur ++ [line]) hrest hp1
      exact ⟨done1, cur1, hrun, hp2, by rw [hfl]; simp⟩
    · -- the current group is sealed and the line starts the next one
      have hcne : cur ≠ [] := by
        intro h
        rw [h] at hj
        simp [Splitter.groupTokens] at hj
        omega
      have hst : (if (stateOf s done cur).currentTokenCount + (s.lineTokens line : Int)
            ≤ s.chunkSize then
          ({ chunks := (stateOf s done cur).chunks
             currentChunk := (stateOf s done cur).currentChunk ++ line ++ "\n"
             currentTokenCount :=
              (stateOf s done cur).currentTokenCount + (s.lineTokens line : Int) } : JSONLState)
        else
          { chunks := (stateOf s done cur).chunks ++ [(stateOf s done cur).currentChunk]
            currentChunk := line ++ "\n"
            currentTokenCount := (s.lineTokens line : Int) }) =
          stateOf s (done ++ [cur]) [line] := by
        simp only [stateOf]
        rw [if_neg hj]
        simp [linesText, Splitter.groupTokens]
      rw [hst]
      have hp1 : Packed s (done ++ [cur]) [line] := by
        refine ⟨?_, by simp, ?_, ?_⟩
        · intro g hg
          rw [List.mem_append, List.mem_singleton] at hg
          rcases hg with hg | rfl
          · exact hne g hg
          · exact hcne
        · intro g hg
          rw [List.mem_append, List.mem_singleton] at hg
          rcases hg with hg | rfl
          · exact hle g hg
          · simpa [Splitter.groupTokens] using hb
        · unfold Greedy at hgr ⊢
          rw [List.chain'_append]
          refine ⟨hgr, by simp, ?_⟩
          intro x hx y hy
          simp only [List.head?_cons, Option.mem_def, Option.some.injEq] at hy
          subst hy
          rw [List.getLast?_concat, Option.mem_def, Option.some.injEq] at hx
          subst hx
          intro l hl
          simp only [List.head?_cons, Option.mem_def, Option.some.injEq] at hl
          subst hl
          omega
      obtain ⟨done1, cur1, hrun, hp2, hfl⟩ := ih (done ++ [cur]) [line] hrest hp1
      exact ⟨done1, cur1, hrun, hp2, by rw [hfl]; simp⟩

end splitter

namespace splitter

/-- For lines that are all valid JSON and within the budget, read to the end,
`SplitJSONL` returns the texts of groups of lines: the groups are nonempty, hold the
lines in order, stay within the budget as the loop counts, and are packed greedily. -/
theorem SplitJSONL_groups (s : Splitter) (validJSON : String → Bool) (lines : List String)
    (hall : ∀ l ∈ lines, validJSON l = true ∧ (s.lineTokens l : Int) ≤ s.chunkSize) :
    ∃ groups : List (List String),
      s.SplitJSONL validJSON { lines := lines, err := none } = .ok (groups.map linesText) ∧
      groups.flatten = lines ∧ (∀ g ∈ groups, g ≠ []) ∧
      (∀ g ∈ groups, (s.groupTokens g : Int) ≤ s.chunkSize) ∧ Greedy s groups := by
  cases lines with
  | nil =>
    exact ⟨[], by simp [Splitter.SplitJSONL, Splitter.scanLoop], rfl, by simp, by simp,
      by simp [Greedy]⟩
  | cons l0 ls =>
    have h0 : (0 : Int) ≤ s.chunkSize := by
      have := (hall l0 (List.mem_cons_self _ _)).2
      omega
    have hp0 : Packed s [] [] := by
      refine ⟨by simp, by simp, ?_, by simp [Greedy]⟩
      intro g hg
      simp only [List.nil_append, List.mem_singleton] at hg
      subst hg
      simpa [Splitter.groupTokens] using h0
    obtain ⟨done, cur, hrun, ⟨hne, hcur, hle, hgr⟩, hfl⟩ :=
      scanLoop_packed s validJSON (l0 :: ls) [] [] hall hp0
    have hinit : ({ chunks := [], currentChunk := "", currentTokenCount := 0 } : JSONLState) =
        stateOf s [] [] := by
      simp [stateOf, linesText, Splitter.groupTokens]
    have hcne : cur ≠ [] := by
      intro h
      rw [h, hcur h] at hfl
      simp at hfl
    obtain ⟨c, cs, hc⟩ := List.exists_cons_of_ne_nil hcne
    refine ⟨done ++ [cur], ?_, by simpa using hfl, ?_, hle, hgr⟩
    · unfold Splitter.SplitJSONL
      simp only []
      rw [hinit, hrun]
      simp only [stateOf]
      rw [if_pos (by rw [hc]; exact linesText_ne_empty c cs)]
      simp
    · intro g hg
      rw [List.mem_append, List.mem_singleton] at hg
      rcases hg with hg | rfl
      · exact hne g hg
      · exact hcne

end splitter

namespace splitter

/-- A line that joins the group being filled. -/
theorem scanLoop_join (s : Splitter) (validJSON : String → Bool) (line : String)
    (rest : List String) (done : List (List String)) (cur : List String)
    (hv : validJSON line = true) (hb : (s.lineTokens line : Int) ≤ s.chunkSize)
    (hj : (s.groupTokens cur : Int) + (s.lineTokens line : Int) ≤ s.chunkSize) :
    s.scanLoop validJSON (line :: rest) (stateOf s done cur) =
      s.scanLoop validJSON rest (stateOf s done (cur ++ [line])) := by
  rw [scanLoop_cons s validJSON line rest _ hv hb]
  simp only [stateOf]
  rw [if_pos hj, linesText_snoc, groupTokens_snoc]
  push_cast
  rfl

/-- A line that seals the group being filled and starts the next one. -/
theorem scanLoop_seal (s : Splitter) (validJSON : String → Bool) (line : String)
    (rest : List String) (done : List (List String)) (cur : List String)
    (hv : validJSON line = true) (hb : (s.lineTokens line : Int) ≤ s.chunkSize)
    (hj : ¬ (s.groupTokens cur : Int) + (s.lineTokens line : Int) ≤ s.chunkSize) :
    s.scanLoop validJSON (line :: rest) (stateOf s done cur) =
      s.scanLoop validJSON rest (stateOf s (done ++ [cur]) [line]) := by
  rw [scanLoop_cons s validJSON line rest _ hv hb]
  simp only [stateOf]
  rw [if_neg hj]
  simp [linesText, Splitter.groupTokens]

/-- The scanning loop stops with an error at the first line that is not valid JSON
or exceeds the budget, whatever was scanned before. -/
theorem scanLoop_bad (s : Splitter) (validJSON : String → Bool) :
    ∀ (lines : List String) (st : JSONLState),
      (∃ l ∈ lines, validJSON l = false ∨ (s.lineTokens l : Int) > s.chunkSize) →
      ∃ e, s.scanLoop validJSON lines st = .err e ∧
        ∃ l ∈ lines, e = .invalidJSON l ∨ e = .lineTooLong (s.lineTokens l) := by
  intro lines
  induction lines with
  | nil => intro st h; simp at h
  | cons line rest ih =>
    intro st h
    by_cases hv : validJSON line = false
    · refine ⟨.invalidJSON line, ?_, line, List.mem_cons_self _ _, Or.inl rfl⟩
      rw [Splitter.scanLoop, if_pos hv]
    · have hv' : validJSON line = true := by simpa using hv
      by_cases hb : (s.lineTokens line : Int) > s.chunkSize
      · refine ⟨.lineTooLong (s.lineTokens line), ?_, line, List.mem_cons_self _ _, Or.inr rfl⟩
        rw [Splitter.scanLoop, if_neg hv]
        have hb' : ((s.Encode line).length : Int) > s.chunkSize := hb
        simp only [hb', if_true]
        rfl
      · have hrest : ∃ l ∈ rest, validJSON l = false ∨ (s.lineTokens l : Int) > s.chunkSize := by
          obtain ⟨l, hl, hbad⟩ := h
          rcases List.mem_cons.1 hl with rfl | hl
          · rcases hbad with h1 | h1
            · exact absurd h1 hv
            · exact absurd h1 hb
          · exact ⟨l, hl, hbad⟩
        rw [scanLoop_cons s validJSON line rest st hv' (by omega)]
        obtain ⟨e, he, l, hl, hel⟩ := ih _ hrest
        exact ⟨e, he, l, List.mem_cons_of_mem _ hl, hel⟩

/-- Counterexample to C4 as stated: two lines, both valid JSON and within the budget
of 100000 tokens, after which the scanner stops with `bufio.ErrTooLong`, as it does
at a next line, valid and within that budget, that does not fit in 64 KiB.
`SplitJSONL` returns the read error and no chunks, so the lines are in no chunk. -/
theorem SplitJSONL_long_line_no_chunks :
    (∀ l ∈ ["1", "2"], (fun _ => true) l = true ∧
      ((Splitter.mk 100000 charCodec).lineTokens l : Int)
        ≤ (Splitter.mk 100000 charCodec).chunkSize) ∧
    (Splitter.mk 100000 charCodec).SplitJSONL (fun _ => true)
        { lines := ["1", "2"], err := some "bufio.Scanner: token too long" }
      = .err (.scan "bufio.Scanner: token too long") := by
  decide

/-- C4, amended: for every input whose lines are all valid JSON and within the chunk
budget, and which the scanner reads to the end without error, `SplitJSONL` returns
chunks that never split a line and hold every line exactly once, in order: the
chunks are the texts of consecutive nonempty groups of whole lines, each line
followed by a newline, and the chunks concatenated in order are the lines, in
order, each followed by a newline. -/
theorem SplitJSONL_whole_lines (s : Splitter) (validJSON : String → Bool) (lines : List String)
    (hall : ∀ l ∈ lines, validJSON l = true ∧ (s.lineTokens l : Int) ≤ s.chunkSize) :
    ∃ groups : List (List String),
      s.SplitJSONL validJSON { lines := lines, err := none } = .ok (groups.map linesText) ∧
      groups.flatten = lines ∧ (∀ g ∈ groups, g ≠ []) ∧
      concat (groups.map linesText) = linesText lines := by
  obtain ⟨groups, hrun, hfl, hne, -, -⟩ := SplitJSONL_groups s validJSON lines hall
  exact ⟨groups, hrun, hfl, hne, by rw [concat_map_linesText, hfl]⟩

/-- Instance of `SplitJSONL_whole_lines`: three one-token lines with chunk size two. -/
theorem SplitJSONL_whole_lines_witness :
    (∀ l ∈ ["1", "2", "3"], (fun _ => true) l = true ∧
      ((Splitter.mk 2 charCodec).lineTokens l : Int) ≤ (Splitter.mk 2 charCodec).chunkSize) ∧
    ∃ groups : List (List String),
      (Splitter.mk 2 charCodec).SplitJSONL (fun _ => true)
        { lines := ["1", "2", "3"], err := none } = .ok (groups.map linesText) ∧
      groups.flatten = ["1", "2", "3"] ∧ (∀ g ∈ groups, g ≠ []) ∧
      concat (groups.map linesText) = linesText ["1", "2", "3"] :=
  ⟨by decide, SplitJSONL_whole_lines (Splitter.mk 2 charCodec) (fun _ => true) ["1", "2", "3"]
    (by decide)⟩

end splitter

namespace splitter

/-- Every member of a list of windows sits between a part before it and a part
after it in the concatenation. -/
theorem window_in_flatten (ws : List (List Int)) (w : List Int) (hw : w ∈ ws) :
    ∃ a b, a ++ w ++ b = ws.flatten := by
  obtain ⟨pre, post, rfl⟩ := List.mem_iff_append.1 hw
  exact ⟨pre.flatten, post.flatten, by simp⟩

/-- What `Split` does ensure: for every input text `T` and every positive chunk
size, if re-encoding the decoding of a window of `encode(T)` never gives more tokens
than the window holds, then every chunk returned, measured again with the same
tokenizer, has at most `chunkSize` tokens. -/
theorem Split_chunk_tokens (s : Splitter) (T : String) (h : 0 < s.chunkSize)
    (hre : ∀ a w b : List Int, a ++ w ++ b = s.Encode T →
      (s.Encode (s.tkm.Decode w)).length ≤ w.length) :
    ∃ chunks : List String,
      s.Split (.ok T) = .ok chunks ∧
      ∀ c ∈ chunks, ((s.Encode c).length : Int) ≤ s.chunkSize := by
  have hcs : s.chunkSize = ((s.chunkSize.toNat : Nat) : Int) := by omega
  obtain ⟨ws, hrun, hjoin, hfull, hlast, -⟩ :=
    Split_spec s T s.chunkSize.toNat (by omega) hcs
  refine ⟨ws.map s.tkm.Decode, hrun, ?_⟩
  intro c hc
  obtain ⟨w, hw, rfl⟩ := List.mem_map.1 hc
  obtain ⟨a, b, hab⟩ := window_in_flatten ws w hw
  have h1 := hre a w b (by rw [hab, hjoin])
  have h2 : w.length ≤ s.chunkSize.toNat := by
    rcases List.eq_nil_or_concat ws with hnil | ⟨init, lastw, hws⟩
    · rw [hnil] at hw; simp at hw
    · rw [hws, List.concat_eq_append] at hw hfull hlast
      rw [List.dropLast_concat] at hfull
      rw [List.getLast?_concat] at hlast
      rcases List.mem_append.1 hw with hm | hm
      · exact le_of_eq (hfull w hm)
      · rw [List.mem_singleton] at hm
        exact (hlast w (by rw [hm]; rfl)).2
  omega

/-- C3, the code at the failing input: for a tokenizer that, as cl100k_base does,
encodes the input to the tokens 12, 45918, 252, 7561, 25 and measures the decoding
of the second window of two tokens, 252 and 7561, as three tokens, `Split` with
chunk size 2 returns the decodings of the three windows, and the second chunk,
measured again, has more than `chunkSize` tokens. -/
theorem Split_chunk_over_budget (tkm : Tiktoken) (input : String)
    (henc : tkm.Encode input = [12, 45918, 252, 7561, 25])
    (hre : (tkm.Encode (tkm.Decode [252, 7561])).length = 3) :
    NewSplitter (.ok tkm) 2 = .ok { chunkSize := 2, tkm := tkm } ∧
    (Splitter.mk 2 tkm).Split (.ok input) =
      .ok [tkm.Decode [12, 45918], tkm.Decode [252, 7561], tkm.Decode [25]] ∧
    tkm.Decode [252, 7561] ∈
      [tkm.Decode [12, 45918], tkm.Decode [252, 7561], tkm.Decode [25]] ∧
    ¬ (((Splitter.mk 2 tkm).Encode (tkm.Decode [252, 7561])).length : Int)
      ≤ (Splitter.mk 2 tkm).chunkSize := by
  refine ⟨rfl, ?_, by simp, ?_⟩
  · simp [Splitter.Split, Splitter.Encode, henc, Splitter.splitLoop, slice]
  · simp [Splitter.Encode, hre]

/-- Instance of `Split_chunk_over_budget`: the sampled values of cl100k_base.  The
second chunk is the bytes 9E 2D 61. -/
theorem Split_chunk_over_budget_witness :
    (cl100kSample.Encode "-\xe8\xaa\x9e-a:" = [12, 45918, 252, 7561, 25]) ∧
    ((cl100kSample.Encode (cl100kSample.Decode [252, 7561])).length = 3) ∧
    cl100kSample.Decode [252, 7561] = "\x9e-a" ∧
    (Splitter.mk 2 cl100kSample).Split (.ok "-\xe8\xaa\x9e-a:") =
      .ok ["-\xe8\xaa", "\x9e-a", ":"] ∧
    ¬ (((Splitter.mk 2 cl100kSample).Encode (cl100kSample.Decode [252, 7561])).length : Int)
      ≤ (Splitter.mk 2 cl100kSample).chunkSize :=
  ⟨by decide, by decide, by decide, by decide,
    (Split_chunk_over_budget cl100kSample "-\xe8\xaa\x9e-a:" (by decide) (by decide)).2.2.2⟩

/-- Instance of `Split_chunk_tokens`: the character codec re-encodes every decoded
window to as many tokens as the window holds. -/
theorem Split_chunk_tokens_witness :
    ((0 : Int) < (Splitter.mk 3 charCodec).chunkSize) ∧
    (∀ a w b : List Int, a ++ w ++ b = (Splitter.mk 3 charCodec).Encode "chunked" →
      ((Splitter.mk 3 charCodec).Encode ((Splitter.mk 3 charCodec).tkm.Decode w)).length
        ≤ w.length) ∧
    ∃ chunks : List String,
      (Splitter.mk 3 charCodec).Split (.ok "chunked") = .ok chunks ∧
      ∀ c ∈ chunks, (((Splitter.mk 3 charCodec).Encode c).length : Int)
        ≤ (Splitter.mk 3 charCodec).chunkSize :=
  ⟨by decide, fun _ w _ _ => by simp [Splitter.Encode, charCodec],
    Split_chunk_tokens (Splitter.mk 3 charCodec) "chunked" (by decide)
      (fun _ w _ _ => by simp [Splitter.Encode, charCodec])⟩

/-- C5, the code at the failing input: two one-token lines with chunk size 2 are
packed into the single chunk "1\n2\n"; measured with their newlines the two records
sum to 4 tokens, and the chunk itself measures 4 tokens, both above the budget. -/
theorem SplitJSONL_newline_overflow :
    (Splitter.mk 2 charCodec).SplitJSONL (fun _ => true) { lines := ["1", "2"], err := none }
      = .ok ["1\n2\n"] ∧
    ((Splitter.mk 2 charCodec).Encode ("1" ++ "\n")).length
      + ((Splitter.mk 2 charCodec).Encode ("2" ++ "\n")).length = 4 ∧
    ((Splitter.mk 2 charCodec).Encode "1\n2\n").length = 4 ∧
    ((Splitter.mk 2 charCodec).Encode "1").length
      + ((Splitter.mk 2 charCodec).Encode "2").length = 2 := by
  decide

end splitter

namespace splitter

/-- Three lines of 10, 15 and 5 tokens with chunk size 25 give two chunks, the first
two lines together and the third alone. -/
theorem SplitJSONL_three_lines (s : Splitter) (validJSON : String → Bool) (l1 l2 l3 : String)
    (hv1 : validJSON l1 = true) (hv2 : validJSON l2 = true) (hv3 : validJSON l3 = true)
    (h1 : s.lineTokens l1 = 10) (h2 : s.lineTokens l2 = 15) (h3 : s.lineTokens l3 = 5)
    (hcs : s.chunkSize = 25) :
    s.SplitJSONL validJSON { lines := [l1, l2, l3], err := none } =
      .ok [linesText [l1, l2], linesText [l3]] := by
  have hinit : ({ chunks := [], currentChunk := "", currentTokenCount := 0 } : JSONLState) =
      stateOf s [] [] := by
    simp [stateOf, linesText, Splitter.groupTokens]
  unfold Splitter.SplitJSONL
  simp only []
  rw [hinit,
    scanLoop_join s validJSON l1 _ [] [] hv1 (by rw [h1, hcs]; decide)
      (by simp [Splitter.groupTokens, h1, hcs]),
    scanLoop_join s validJSON l2 _ [] ([] ++ [l1]) hv2 (by rw [h2, hcs]; decide)
      (by simp [Splitter.groupTokens, h1, h2, hcs]),
    scanLoop_seal s validJSON l3 _ [] ([] ++ [l1] ++ [l2]) hv3 (by rw [h3, hcs]; decide)
      (by simp [Splitter.groupTokens, h1, h2, h3, hcs])]
  simp only [Splitter.scanLoop, stateOf]
  rw [if_pos (linesText_ne_empty l3 [])]
  rfl

/-- C6: `SplitJSONL` packs records greedily.  A record (valid, within the budget)
joins the current chunk exactly when the running token count plus its own token
count is at most `chunkSize`, otherwise the current chunk is sealed and the record
starts a new one; hence, for an accepted input, the token total of every emitted
chunk plus the token count of the first record of the next chunk exceeds
`chunkSize`; and three lines of 10, 15 and 5 tokens with chunk size 25 give the two
chunks line1+line2 and line3. -/
theorem SplitJSONL_greedy (s : Splitter) (validJSON : String → Bool) :
    (∀ (line : String) (rest : List String) (st : JSONLState),
      validJSON line = true → (s.lineTokens line : Int) ≤ s.chunkSize →
      s.scanLoop validJSON (line :: rest) st =
        s.scanLoop validJSON rest
          (if st.currentTokenCount + (s.lineTokens line : Int) ≤ s.chunkSize then
            { chunks := st.chunks
              currentChunk := st.currentChunk ++ line ++ "\n"
              currentTokenCount := st.currentTokenCount + (s.lineTokens line : Int) }
          else
            { chunks := st.chunks ++ [st.currentChunk]
              currentChunk := line ++ "\n"
              currentTokenCount := (s.lineTokens line : Int) })) ∧
    (∀ lines : List String,
      (∀ l ∈ lines, validJSON l = true ∧ (s.lineTokens l : Int) ≤ s.chunkSize) →
      ∃ groups : List (List String),
        s.SplitJSONL validJSON { lines := lines, err := none } = .ok (groups.map linesText) ∧
        groups.flatten = lines ∧
        (∀ g ∈ groups, (s.groupTokens g : Int) ≤ s.chunkSize) ∧
        groups.Chain' (fun g next => ∀ l ∈ next.head?,
          (s.groupTokens g : Int) + (s.lineTokens l : Int) > s.chunkSize)) ∧
    (∀ l1 l2 l3 : String,
      validJSON l1 = true → validJSON l2 = true → validJSON l3 = true →
      s.lineTokens l1 = 10 → s.lineTokens l2 = 15 → s.lineTokens l3 = 5 → s.chunkSize = 25 →
      s.SplitJSONL validJSON { lines := [l1, l2, l3], err := none } =
        .ok [l1 ++ "\n" ++ l2 ++ "\n", l3 ++ "\n"]) := by
  refine ⟨fun line rest st hv hb => scanLoop_cons s validJSON line rest st hv hb, ?_, ?_⟩
  · intro lines hall
    obtain ⟨groups, hrun, hfl, -, hle, hgr⟩ := SplitJSONL_groups s validJSON lines hall
    exact ⟨groups, hrun, hfl, hle, hgr⟩
  · intro l1 l2 l3 hv1 hv2 hv3 h1 h2 h3 hcs
    rw [SplitJSONL_three_lines s validJSON l1 l2 l3 hv1 hv2 hv3 h1 h2 h3 hcs]
    simp [linesText, String.append_assoc]

/-- Instance of `SplitJSONL_greedy`: lines of 10, 15 and 5 characters with the
character codec and chunk size 25. -/
theorem SplitJSONL_greedy_witness :
    ((fun _ => true) "1234567890" = true ∧
      ((Splitter.mk 25 charCodec).lineTokens "1234567890" : Int)
        ≤ (Splitter.mk 25 charCodec).chunkSize) ∧
    (∀ l ∈ ["1234567890", "123456789012345", "12345"], (fun _ => true) l = true ∧
      ((Splitter.mk 25 charCodec).lineTokens l : Int) ≤ (Splitter.mk 25 charCodec).chunkSize) ∧
    (Splitter.mk 25 charCodec).lineTokens "1234567890" = 10 ∧
    (Splitter.mk 25 charCodec).lineTokens "123456789012345" = 15 ∧
    (Splitter.mk 25 charCodec).lineTokens "12345" = 5 ∧
    (Splitter.mk 25 charCodec).SplitJSONL (fun _ => true)
        { lines := ["1234567890", "123456789012345", "12345"], err := none } =
      .ok ["1234567890" ++ "\n" ++ "123456789012345" ++ "\n", "12345" ++ "\n"] ∧
    (∃ groups : List (List String),
      (Splitter.mk 25 charCodec).SplitJSONL (fun _ => true)
        { lines := ["1234567890", "123456789012345", "12345"], err := none } =
        .ok (groups.map linesText) ∧
      groups.flatten = ["1234567890", "123456789012345", "12345"] ∧
      (∀ g ∈ groups, ((Splitter.mk 25 charCodec).groupTokens g : Int)
        ≤ (Splitter.mk 25 charCodec).chunkSize) ∧
      groups.Chain' (fun g next => ∀ l ∈ next.head?,
        ((Splitter.mk 25 charCodec).groupTokens g : Int)
          + ((Splitter.mk 25 charCodec).lineTokens l : Int)
          > (Splitter.mk 25 charCodec).chunkSize)) ∧
    (Splitter.mk 25 charCodec).scanLoop (fun _ => true) ["1234567890"]
        { chunks := [], currentChunk := "", currentTokenCount := 0 } =
      .ok { chunks := [], currentChunk := "1234567890\n", currentTokenCount := 10 } :=
  ⟨by decide, by decide, by decide, by decide, by decide,
    (SplitJSONL_greedy (Splitter.mk 25 charCodec) (fun _ => true)).2.2
      "1234567890" "123456789012345" "12345" rfl rfl rfl (by decide) (by decide) (by decide) rfl,
    (SplitJSONL_greedy (Splitter.mk 25 charCodec) (fun _ => true)).2.1
      ["1234567890", "123456789012345", "12345"] (by decide),
    by
      rw [(SplitJSONL_greedy (Splitter.mk 25 charCodec) (fun _ => true)).1
        "1234567890" [] _ rfl (by decide)]
      decide⟩

/-- Counterexample to C7 as stated: an input whose only line read is valid JSON and
within the budget, and for which the scanner reports `bufio.ErrTooLong`.
`SplitJSONL` returns an error, not chunks. -/
theorem SplitJSONL_scan_error_all_valid :
    (∀ l ∈ ["true"], (fun _ => true) l = true ∧
      ((Splitter.mk 100000 charCodec).lineTokens l : Int)
        ≤ (Splitter.mk 100000 charCodec).chunkSize) ∧
    (Splitter.mk 100000 charCodec).SplitJSONL (fun _ => true)
        { lines := ["true"], err := some "bufio.Scanner: token too long" }
      = .err (.scan "bufio.Scanner: token too long") ∧
    ¬ ∃ chunks : List String,
      (Splitter.mk 100000 charCodec).SplitJSONL (fun _ => true)
        { lines := ["true"], err := some "bufio.Scanner: token too long" } = .ok chunks := by
  refine ⟨by decide, by decide, ?_⟩
  rintro ⟨chunks, h⟩
  have h2 : (Splitter.mk 100000 charCodec).SplitJSONL (fun _ => true)
      { lines := ["true"], err := some "bufio.Scanner: token too long" }
      = .err (.scan "bufio.Scanner: token too long") := by decide
  rw [h2] at h
  exact Result.noConfusion h

/-- C7, amended: `SplitJSONL` returns an error, and with it no chunks at all, if some
input line is not valid JSON or has more than `chunkSize` tokens, also when earlier
lines had already filled chunks (the error names such a line), or if every line
read is valid and within the budget and the scanner reports an error (that error
is returned).  For an input read to the end without scanner error, in which every
line is valid JSON with at most `chunkSize` tokens, it returns no error and the
chunks that hold all the lines: the texts of consecutive nonempty groups of the
lines, none only for an input without lines. -/
theorem SplitJSONL_error_iff (s : Splitter) (validJSON : String → Bool) (lines : List String) :
    ((∃ l ∈ lines, validJSON l = false ∨ (s.lineTokens l : Int) > s.chunkSize) →
      ∀ err : Option String, ∃ e,
        s.SplitJSONL validJSON { lines := lines, err := err } = .err e ∧
        ∃ l ∈ lines, e = .invalidJSON l ∨ e = .lineTooLong (s.lineTokens l)) ∧
    ((∀ l ∈ lines, validJSON l = true ∧ (s.lineTokens l : Int) ≤ s.chunkSize) →
      ∀ cause : String,
        s.SplitJSONL validJSON { lines := lines, err := some cause } = .err (.scan cause)) ∧
    ((∀ l ∈ lines, validJSON l = true ∧ (s.lineTokens l : Int) ≤ s.chunkSize) →
      ∃ groups : List (List String),
        s.SplitJSONL validJSON { lines := lines, err := none } = .ok (groups.map linesText) ∧
        groups.flatten = lines ∧ (∀ g ∈ groups, g ≠ []) ∧
        (groups.map linesText = [] ↔ lines = [])) := by
  refine ⟨?_, ?_, ?_⟩
  · intro hbad err
    obtain ⟨e, he, hl⟩ := scanLoop_bad s validJSON lines
      { chunks := [], currentChunk := "", currentTokenCount := 0 } hbad
    refine ⟨e, ?_, hl⟩
    unfold Splitter.SplitJSONL
    simp only []
    rw [he]
  · intro hall cause
    obtain ⟨groups, hrun, -⟩ := SplitJSONL_groups s validJSON lines hall
    unfold Splitter.SplitJSONL at hrun ⊢
    simp only [] at hrun ⊢
    cases hloop : s.scanLoop validJSON lines
        { chunks := [], currentChunk := "", currentTokenCount := 0 } with
    | err e => rw [hloop] at hrun; exact Result.noConfusion hrun
    | panic => rw [hloop] at hrun; exact Result.noConfusion hrun
    | diverge => rw [hloop] at hrun; exact Result.noConfusion hrun
    | ok st => rfl
  · intro hall
    obtain ⟨groups, hrun, hfl, hne, -, -⟩ := SplitJSONL_groups s validJSON lines hall
    refine ⟨groups, hrun, hfl, hne, ?_⟩
    constructor
    · intro hnil
      have hg : groups = [] := List.map_eq_nil_iff.1 hnil
      rw [← hfl, hg]
      rfl
    · intro hnil
      rw [hnil] at hfl
      cases groups with
      | nil => rfl
      | cons g rest =>
        exfalso
        have hg : g ≠ [] := hne g (List.mem_cons_self _ _)
        rw [List.flatten_cons] at hfl
        exact hg (List.append_eq_nil.1 hfl).1

/-- Instance of `SplitJSONL_error_iff`: a third line that is not valid JSON after two
lines that fill a chunk; three valid lines after which the scanner fails; and three
valid lines read to the end, which come back as three chunks. -/
theorem SplitJSONL_error_iff_witness :
    (∃ l ∈ ["1", "2", "x"], (fun l => l != "x") l = false ∨
      ((Splitter.mk 1 charCodec).lineTokens l : Int) > (Splitter.mk 1 charCodec).chunkSize) ∧
    (∀ err : Option String, ∃ e,
      (Splitter.mk 1 charCodec).SplitJSONL (fun l => l != "x")
        { lines := ["1", "2", "x"], err := err } = .err e ∧
      ∃ l ∈ ["1", "2", "x"], e = .invalidJSON l ∨
        e = .lineTooLong ((Splitter.mk 1 charCodec).lineTokens l)) ∧
    (∀ l ∈ ["1", "2", "3"], (fun l => l != "x") l = true ∧
      ((Splitter.mk 1 charCodec).lineTokens l : Int) ≤ (Splitter.mk 1 charCodec).chunkSize) ∧
    (∀ cause : String,
      (Splitter.mk 1 charCodec).SplitJSONL (fun l => l != "x")
        { lines := ["1", "2", "3"], err := some cause } = .err (.scan cause)) ∧
    (∃ groups : List (List String),
      (Splitter.mk 1 charCodec).SplitJSONL (fun l => l != "x")
        { lines := ["1", "2", "3"], err := none } = .ok (groups.map linesText) ∧
      groups.flatten = ["1", "2", "3"] ∧ (∀ g ∈ groups, g ≠ []) ∧
      (groups.map linesText = [] ↔ ["1", "2", "3"] = [])) ∧
    (Splitter.mk 1 charCodec).SplitJSONL (fun l => l != "x")
      { lines := ["1", "2", "3"], err := none } = .ok ["1\n", "2\n", "3\n"] :=
  ⟨by decide,
    (SplitJSONL_error_iff (Splitter.mk 1 charCodec) (fun l => l != "x") ["1", "2", "x"]).1
      (by decide),
    by decide,
    (SplitJSONL_error_iff (Splitter.mk 1 charCodec) (fun l => l != "x") ["1", "2", "3"]).2.1
      (by decide),
    (SplitJSONL_error_iff (Splitter.mk 1 charCodec) (fun l => l != "x") ["1", "2", "3"]).2.2
      (by decide),
    by decide⟩

/-- Counterexample to C8 as stated: `NewSplitter` returns a Splitter for the chunk
sizes 0 and -5. -/
theorem NewSplitter_accepts_zero :
    (∃ s, NewSplitter (.ok charCodec) 0 = .ok s ∧ s.chunkSize = 0) ∧
    (∃ s, NewSplitter (.ok charCodec) (-5) = .ok s ∧ s.chunkSize = -5) :=
  ⟨⟨_, rfl, rfl⟩, ⟨_, rfl, rfl⟩⟩

/-- C8, amended: `NewSplitter(chunkSize)` does not look at `chunkSize`.  It fails
exactly when the tokenizer encoding cannot be obtained, and otherwise returns a
Splitter holding the given chunk size, whatever its sign. -/
theorem NewSplitter_any_chunkSize (chunkSize : Int) :
    (∀ tkm : Tiktoken, NewSplitter (.ok tkm) chunkSize = .ok { chunkSize := chunkSize, tkm := tkm }) ∧
    (∀ cause : String, NewSplitter (.error cause) chunkSize = .err (.encoding cause)) :=
  ⟨fun _ => rfl, fun _ => rfl⟩

end splitter

namespace summarizer

/-- Fuel beyond the passes left before the cap changes nothing: the loop of
`Summarize` never runs out of the fuel it is given. -/
theorem summarizeLoop_fuel (s : Summarizer) (prompt : String) :
    ∀ (fuel : Nat) (st : ReductionState), maxIterations + 1 - st.iteration < fuel →
      s.summarizeLoop prompt (fuel + 1) st = s.summarizeLoop prompt fuel st := by
  intro fuel
  induction fuel with
  | zero => intro st h; omega
  | succ fuel ih =>
    intro st h
    rw [Summarizer.summarizeLoop, Summarizer.summarizeLoop.eq_def s prompt (fuel + 1)]
    simp only []
    split
    · rfl
    · next hcap =>
      split
      · rfl
      · split <;> try rfl
        split
        · rfl
        · split
          · rfl
          · exact ih _ (by simp only []; omega)

/-- The outcome of `Summarize` is the outcome of its loop for every larger fuel. -/
theorem Summarize_fuel (s : Summarizer) (text prompt : String) (extra : Nat) :
    s.summarizeLoop prompt (maxIterations + 1 + extra)
      { currentText := text, iteration := 1, sent := [], rounds := 0 } =
    s.Summarize text prompt := by
  induction extra with
  | zero => rfl
  | succ extra ih =>
    rw [← ih, ← Nat.add_assoc]
    exact summarizeLoop_fuel s prompt _ _ (by simp only [maxIterations]; omega)

/-- While every text measured is not below the budget, splits into more than one
chunk and has all its sub-chunks summarized, the loop of `Summarize` runs until the
cap: it returns the max-iterations error with `iteration` one above the cap, after
one completed round per remaining value of `iteration`. -/
theorem summarizeLoop_capped (s : Summarizer) (prompt : String)
    (P : String → List String → Prop)
    (hstep : ∀ t sent, P t sent →
      ¬ (((s.splitter.Encode t).length : Int) + ((s.splitter.Encode prompt).length : Int)
          < s.chunkSize) ∧
      ∃ chunks summaries sent1,
        s.splitter.Split (.ok t) = .ok chunks ∧ 1 < chunks.length ∧
        s.summarizeChunks prompt chunks [] sent = (.ok summaries, sent1) ∧
        P (String.intercalate separator summaries) sent1) :
    ∀ (fuel : Nat) (st : ReductionState), P st.currentText st.sent →
      st.iteration ≤ maxIterations + 1 → maxIterations + 1 - st.iteration < fuel →
      (s.summarizeLoop prompt fuel st).result = .err (.maxIterations maxIterations) ∧
      (s.summarizeLoop prompt fuel st).final.iteration = maxIterations + 1 ∧
      (s.summarizeLoop prompt fuel st).final.rounds
        = st.rounds + (maxIterations + 1 - st.iteration) := by
  intro fuel
  induction fuel with
  | zero => intro st _ _ h; omega
  | succ fuel ih =>
    intro st hP hle hfuel
    by_cases hcap : st.iteration > maxIterations
    · rw [Summarizer.summarizeLoop, if_pos hcap]
      refine ⟨rfl, ?_, ?_⟩
      · show st.iteration = maxIterations + 1
        omega
      · show st.rounds = st.rounds + (maxIterations + 1 - st.iteration)
        omega
    · obtain ⟨hover, chunks, summaries, sent1, hsplit, hmany, hfan, hP1⟩ :=
        hstep st.currentText st.sent hP
      have hne : ¬ chunks.length = 1 := by omega
      have hrun : s.summarizeLoop prompt (fuel + 1) st =
          s.summarizeLoop prompt fuel
            { currentText := String.intercalate separator summaries
              iteration := st.iteration + 1
              sent := sent1
              rounds := st.rounds + 1 } := by
        rw [Summarizer.summarizeLoop, if_neg hcap]
        simp only [hover, if_false, hsplit, hne, hfan]
      rw [hrun]
      obtain ⟨h1, h2, h3⟩ := ih
        { currentText := String.intercalate separator summaries
          iteration := st.iteration + 1
          sent := sent1
          rounds := st.rounds + 1 } hP1 (by simp only []; omega) (by simp only []; omega)
      refine ⟨h1, h2, ?_⟩
      rw [h3]
      simp only []
      omega

/-- C10: for every text, prompt and budget such that at every measurement the
tokens of the current text plus those of the prompt are not below the budget and
every split yields more than one chunk, all of them summarized (the property `P`
holds of the text given and of every text that results from a round), `Summarize`
fails with the max-iterations error after exactly 10 rounds of splitting and
summarizing: `iteration` is then 11 and the result is empty. -/
theorem Summarize_max_iterations (s : Summarizer) (text prompt : String)
    (P : String → List String → Prop) (h0 : P text [])
    (hstep : ∀ t sent, P t sent →
      ¬ (((s.splitter.Encode t).length : Int) + ((s.splitter.Encode prompt).length : Int)
          < s.chunkSize) ∧
      ∃ chunks summaries sent1,
        s.splitter.Split (.ok t) = .ok chunks ∧ 1 < chunks.length ∧
        s.summarizeChunks prompt chunks [] sent = (.ok summaries, sent1) ∧
        P (String.intercalate separator summaries) sent1) :
    (s.Summarize text prompt).result = .err (.maxIterations 10) ∧
    (s.Summarize text prompt).final.rounds = 10 ∧
    (s.Summarize text prompt).final.iteration = 11 := by
  obtain ⟨h1, h2, h3⟩ := summarizeLoop_capped s prompt P hstep (maxIterations + 1)
    { currentText := text, iteration := 1, sent := [], rounds := 0 } h0
    (by simp [maxIterations]) (by simp [maxIterations])
  exact ⟨h1, h3, h2⟩

/-- Instance of `Summarize_max_iterations`: with budget 5 and a client that always
answers "a", the 9-character text "a", separator, "a" splits into two chunks whose
summaries join to the same text again. -/
theorem Summarize_max_iterations_witness :
    ((fun (t : String) (_ : List String) => t = "a\n\n---\n\na") "a\n\n---\n\na" []) ∧
    (constSummarizer.Summarize "a\n\n---\n\na" "").result = .err (.maxIterations 10) ∧
    (constSummarizer.Summarize "a\n\n---\n\na" "").final.rounds = 10 ∧
    (constSummarizer.Summarize "a\n\n---\n\na" "").final.iteration = 11 :=
  ⟨rfl,
    Summarize_max_iterations constSummarizer "a\n\n---\n\na" ""
      (fun t _ => t = "a\n\n---\n\na") rfl
      (by
        intro t sent ht
        subst ht
        refine ⟨by decide, ["a\n\n--", "-\n\na"], ["a", "a"], _, by decide, by decide, rfl, ?_⟩
        show String.intercalate separator ["a", "a"] = "a\n\n---\n\na"
        decide)⟩

end summarizer

namespace cmd

/-- Nine chunks, all analyzed without error, are combined in chunk order. -/
theorem RunE_nine_chunks_in_order :
    (RunE (demoWorld "abcdefghi" (List.range 9)) demoConf false).chunks
      = some ["a", "b", "c", "d", "e", "f", "g", "h", "i"] ∧
    (RunE (demoWorld "abcdefghi" (List.range 9)) demoConf false).combined
      = some ("r1\n\n---\n\nr2\n\n---\n\nr3\n\n---\n\nr4\n\n---\n\nr5\n\n---\n\nr6\n\n---\n\n"
          ++ "r7\n\n---\n\nr8\n\n---\n\nr9\n\n---\n\n") := by
  decide

/-- C9, the code at the failing input: ten chunks, all analyzed without error.  The
results are written to chunk_1.txt ... chunk_10.txt and read back in the order of
the directory listing, so the text handed to the summarizer holds the result of
chunk 10 right after that of chunk 1 and before that of chunk 2, whether the
goroutines finish in launch order or in the reverse order. -/
theorem RunE_ten_chunks_reordered :
    (RunE (demoWorld "abcdefghij" (List.range 10)) demoConf false).chunks
      = some ["a", "b", "c", "d", "e", "f", "g", "h", "i", "j"] ∧
    (RunE (demoWorld "abcdefghij" (List.range 10)) demoConf false).result = .ok () ∧
    readDir (RunE (demoWorld "abcdefghij" (List.range 10)) demoConf false).dir
      = ["chunk_1.txt", "chunk_10.txt", "chunk_2.txt", "chunk_3.txt", "chunk_4.txt",
         "chunk_5.txt", "chunk_6.txt", "chunk_7.txt", "chunk_8.txt", "chunk_9.txt"] ∧
    (RunE (demoWorld "abcdefghij" (List.range 10)) demoConf false).combined
      = some ("r1\n\n---\n\nr10\n\n---\n\nr2\n\n---\n\nr3\n\n---\n\nr4\n\n---\n\nr5\n\n---\n\n"
          ++ "r6\n\n---\n\nr7\n\n---\n\nr8\n\n---\n\nr9\n\n---\n\n") ∧
    (RunE (demoWorld "abcdefghij" (List.range 10).reverse) demoConf false).combined
      = (RunE (demoWorld "abcdefghij" (List.range 10)) demoConf false).combined ∧
    (RunE (demoWorld "abcdefghij" (List.range 10)) demoConf false).combined
      ≠ some ("r1\n\n---\n\nr2\n\n---\n\nr3\n\n---\n\nr4\n\n---\n\nr5\n\n---\n\nr6\n\n---\n\n"
          ++ "r7\n\n---\n\nr8\n\n---\n\nr9\n\n---\n\nr10\n\n---\n\n") := by
  decide

end cmd

namespace summarizer

/-- The loop of `Summarize` is the repetition of its passes. -/
theorem summarizeLoop_eq_passes (s : Summarizer) (prompt : String) :
    ∀ (fuel : Nat) (st : ReductionState),
      s.summarizeLoop prompt fuel st = s.passes prompt fuel st := by
  intro fuel
  induction fuel with
  | zero => intro st; rfl
  | succ fuel ih =>
    intro st
    rw [Summarizer.summarizeLoop, Summarizer.passes, Summarizer.pass]
    simp only []
    by_cases hcap : st.iteration > maxIterations
    · simp only [hcap, if_true]
    · simp only [hcap, if_false]
      by_cases hb : (((s.splitter.Encode st.currentText).length : Int)
          + ((s.splitter.Encode prompt).length : Int)) < s.chunkSize
      · simp only [hb, if_true]
      · simp only [hb, if_false]
        cases hsplit : s.splitter.Split (.ok st.currentText) with
        | err e => simp only [Summarizer.afterSplit]
        | panic => simp only [Summarizer.afterSplit]
        | diverge => simp only [Summarizer.afterSplit]
        | ok chunks =>
          simp only [Summarizer.afterSplit]
          by_cases h1 : chunks.length = 1
          · simp only [h1, if_true]
          · simp only [h1, if_false]
            rcases hfan : s.summarizeChunks prompt chunks [] st.sent with ⟨_ | _, sent⟩
            · simp only []
            · simp only []
              exact ih _

/-- A pass that measures a text below the budget ends with the final analysis. -/
theorem pass_below (s : Summarizer) (prompt : String) (st : ReductionState)
    (hit : st.iteration ≤ maxIterations)
    (hb : ((s.splitter.Encode st.currentText).length : Int)
      + ((s.splitter.Encode prompt).length : Int) < s.chunkSize) :
    s.pass prompt st = .done (s.analyzeWhole prompt { st with iteration := st.iteration + 1 }) := by
  have hcap : ¬ st.iteration > maxIterations := by omega
  unfold Summarizer.pass
  simp only [hcap, if_false, hb, if_true]

/-- A pass that measures a text not below the budget hands it to `Split` and goes on
from what `Split` returns. -/
theorem pass_over (s : Summarizer) (prompt : String) (st : ReductionState)
    (hit : st.iteration ≤ maxIterations)
    (hb : s.chunkSize ≤ ((s.splitter.Encode st.currentText).length : Int)
      + ((s.splitter.Encode prompt).length : Int)) :
    s.pass prompt st =
      s.afterSplit prompt { st with iteration := st.iteration + 1 }
        (s.splitter.Split (.ok st.currentText)) := by
  have hcap : ¬ st.iteration > maxIterations := by omega
  have hnb : ¬ (((s.splitter.Encode st.currentText).length : Int)
      + ((s.splitter.Encode prompt).length : Int) < s.chunkSize) := by omega
  unfold Summarizer.pass
  simp only [hcap, if_false, hnb]

/-- What follows `Split` is never the exit of the final analysis of a small text. -/
theorem afterSplit_ne_done (s : Summarizer) (prompt : String) (st : ReductionState)
    (r : Result (List String)) (run : Run) : s.afterSplit prompt st r ≠ .done run := by
  unfold Summarizer.afterSplit
  split
  · simp
  · simp
  · simp
  · split
    · simp
    · split <;> simp

end summarizer

namespace summarizer

/-- The final analysis of the whole current text makes exactly one call of `Analyze`,
over the prompt combined with the text, and returns its result unchanged. -/
theorem analyzeWhole_spec (s : Summarizer) (prompt : String) (st : ReductionState) :
    (s.analyzeWhole prompt st).final.sent = st.sent ++ [fullPrompt prompt st.currentText] ∧
    (s.analyzeWhole prompt st).final.currentText = st.currentText ∧
    (s.analyzeWhole prompt st).final.iteration = st.iteration ∧
    (s.analyzeWhole prompt st).final.rounds = st.rounds ∧
    (∀ out, s.client.Analyze st.sent (fullPrompt prompt st.currentText) = .ok out →
      (s.analyzeWhole prompt st).result = .ok out) ∧
    (∀ e, s.client.Analyze st.sent (fullPrompt prompt st.currentText) = .error e →
      (s.analyzeWhole prompt st).result = .err (.analyze e)) := by
  unfold Summarizer.analyzeWhole
  cases h : s.client.Analyze st.sent (fullPrompt prompt st.currentText) with
  | error e => simp
  | ok out => simp

end summarizer

namespace summarizer

/-- A text exactly at the budget is never divided: with the splitter working on the
same positive budget, `Split` returns one chunk, which is analyzed whole, or no
chunk at all when the text has no tokens. -/
theorem pass_at_budget (s : Summarizer) (prompt : String) (st : ReductionState)
    (hit : st.iteration ≤ maxIterations) (hsame : s.splitter.chunkSize = s.chunkSize)
    (hpos : 0 < s.chunkSize)
    (heq : ((s.splitter.Encode st.currentText).length : Int)
      + ((s.splitter.Encode prompt).length : Int) = s.chunkSize) :
    s.pass prompt st = .stuck (s.analyzeWhole prompt { st with iteration := st.iteration + 1 }) ∨
    s.pass prompt st = .again
      { currentText := "", iteration := st.iteration + 1, sent := st.sent,
        rounds := st.rounds + 1 } := by
  rw [pass_over s prompt st hit (by omega)]
  by_cases h0 : s.splitter.Encode st.currentText = []
  · right
    rw [splitter.Split_empty s.splitter st.currentText h0]
    simp [Summarizer.afterSplit, Summarizer.summarizeChunks, String.intercalate]
  · left
    have hN : 0 < (s.splitter.Encode st.currentText).length := List.length_pos.2 h0
    have hcs : s.splitter.chunkSize = ((s.splitter.chunkSize.toNat : Nat) : Int) := by omega
    obtain ⟨ws, hrun, -, -, -, hlen⟩ :=
      splitter.Split_spec s.splitter st.currentText s.splitter.chunkSize.toNat (by omega) hcs
    have hone : ws.length = 1 := by
      rw [hlen]
      have hle : (s.splitter.Encode st.currentText).length ≤ s.splitter.chunkSize.toNat := by
        omega
      have : (s.splitter.Encode st.currentText).length + s.splitter.chunkSize.toNat - 1
          = ((s.splitter.Encode st.currentText).length - 1) + s.splitter.chunkSize.toNat := by
        omega
      rw [this, Nat.add_div_right _ (by omega), Nat.div_eq_of_lt (by omega)]
    rw [hrun]
    simp [Summarizer.afterSplit, hone]

/-- A pass over the empty text, with a prompt of at least `chunkSize` tokens, ends
neither Done nor Stuck: the split yields no chunk, `Analyze` is not called, and the
loop goes on with the empty text. -/
theorem pass_empty (s : Summarizer) (prompt : String) (st : ReductionState)
    (hit : st.iteration ≤ maxIterations) (htext : st.currentText = "")
    (hempty : s.splitter.Encode "" = [])
    (hprompt : s.chunkSize ≤ ((s.splitter.Encode prompt).length : Int)) :
    s.pass prompt st = .again
      { currentText := "", iteration := st.iteration + 1, sent := st.sent,
        rounds := st.rounds + 1 } := by
  have hlen : ((s.splitter.Encode st.currentText).length : Int) = 0 := by
    rw [htext, hempty]; rfl
  rw [pass_over s prompt st hit (by omega), htext,
    splitter.Split_empty s.splitter "" hempty]
  simp [Summarizer.afterSplit, Summarizer.summarizeChunks, String.intercalate]

/-- The loop of `Summarize` over the empty text, with a prompt of at least
`chunkSize` tokens, runs to the cap without sending a prompt. -/
theorem passes_empty (s : Summarizer) (prompt : String)
    (hempty : s.splitter.Encode "" = [])
    (hprompt : s.chunkSize ≤ ((s.splitter.Encode prompt).length : Int)) :
    ∀ (fuel : Nat) (st : ReductionState), st.currentText = "" →
      st.iteration ≤ maxIterations + 1 → maxIterations + 1 - st.iteration < fuel →
      s.passes prompt fuel st =
        { result := .err (.maxIterations maxIterations)
          final := { currentText := "", iteration := maxIterations + 1, sent := st.sent,
                     rounds := st.rounds + (maxIterations + 1 - st.iteration) } } := by
  intro fuel
  induction fuel with
  | zero => intro st _ _ h; omega
  | succ fuel ih =>
    intro st htext hle hfuel
    by_cases hcap : st.iteration > maxIterations
    · have hp : s.pass prompt st = .capped := by
        unfold Summarizer.pass
        rw [if_pos hcap]
      rw [Summarizer.passes, hp]
      have h1 : st.iteration = maxIterations + 1 := by omega
      have h2 : st.rounds + (maxIterations + 1 - st.iteration) = st.rounds := by omega
      rw [h2, ← h1, ← htext]
    · rw [Summarizer.passes, pass_empty s prompt st (by omega) htext hempty hprompt]
      simp only []
      rw [ih _ rfl (by simp only []; omega) (by simp only []; omega)]
      simp only [Run.mk.injEq, ReductionState.mk.injEq, true_and]
      omega

/-- C14: for every prompt with at least `chunkSize` tokens, `Summarize` called with
the empty text, which encodes to zero tokens, never calls `Analyze`: the split
yields zero chunks, every pass ends neither Done nor Stuck and leaves the current
text empty, and the call returns the max-iterations error after 10 passes. -/
theorem Summarize_empty_text (s : Summarizer) (prompt : String)
    (hempty : s.splitter.Encode "" = [])
    (hprompt : s.chunkSize ≤ ((s.splitter.Encode prompt).length : Int)) :
    (s.Summarize "" prompt).result = .err (.maxIterations 10) ∧
    (s.Summarize "" prompt).final.sent = [] ∧
    (s.Summarize "" prompt).final.rounds = 10 ∧
    (s.Summarize "" prompt).final.iteration = 11 ∧
    (s.Summarize "" prompt).final.currentText = "" ∧
    s.splitter.Split (.ok "") = .ok [] ∧
    (∀ st : ReductionState, st.currentText = "" → st.iteration ≤ maxIterations →
      s.pass prompt st = .again
        { currentText := "", iteration := st.iteration + 1, sent := st.sent,
          rounds := st.rounds + 1 }) := by
  have hrun : s.Summarize "" prompt =
      { result := .err (.maxIterations maxIterations)
        final := { currentText := "", iteration := maxIterations + 1, sent := [],
                   rounds := 0 + (maxIterations + 1 - 1) } } := by
    unfold Summarizer.Summarize
    rw [summarizeLoop_eq_passes]
    exact passes_empty s prompt hempty hprompt (maxIterations + 1)
      { currentText := "", iteration := 1, sent := [], rounds := 0 } rfl
      (by simp [maxIterations]) (by simp [maxIterations])
  rw [hrun]
  exact ⟨rfl, rfl, rfl, rfl, rfl, splitter.Split_empty s.splitter "" hempty,
    fun st htext hit => pass_empty s prompt st hit htext hempty hprompt⟩

/-- Instance of `Summarize_empty_text`: budget 5, the character codec and a prompt of
5 tokens. -/
theorem Summarize_empty_text_witness :
    (constSummarizer.splitter.Encode "" = []) ∧
    (constSummarizer.chunkSize ≤ ((constSummarizer.splitter.Encode "12345").length : Int)) ∧
    (constSummarizer.Summarize "" "12345").result = .err (.maxIterations 10) ∧
    (constSummarizer.Summarize "" "12345").final.sent = [] ∧
    (constSummarizer.Summarize "" "12345").final.rounds = 10 ∧
    (constSummarizer.Summarize "" "12345").final.iteration = 11 ∧
    (constSummarizer.Summarize "" "12345").final.currentText = "" ∧
    constSummarizer.splitter.Split (.ok "") = .ok [] ∧
    (∀ st : ReductionState, st.currentText = "" → st.iteration ≤ maxIterations →
      constSummarizer.pass "12345" st = .again
        { currentText := "", iteration := st.iteration + 1, sent := st.sent,
          rounds := st.rounds + 1 }) :=
  ⟨by decide, by decide, Summarize_empty_text constSummarizer "12345" (by decide) (by decide)⟩

end summarizer

namespace summarizer

/-- When every call succeeds, the loop over the sub-chunks sends one prompt per
sub-chunk, in order, and collects the replies in the same order. -/
theorem summarizeChunks_replies (s : Summarizer) (prompt : String) :
    ∀ (chunks summaries acc sent : List String), summaries.length = chunks.length →
      (∀ (i : Nat) (c sm : String), chunks[i]? = some c → summaries[i]? = some sm →
        s.client.Analyze (sent ++ (chunks.take i).map (fullPrompt prompt))
          (fullPrompt prompt c) = .ok sm) →
      s.summarizeChunks prompt chunks acc sent =
        (.ok (acc ++ summaries), sent ++ chunks.map (fullPrompt prompt)) := by
  intro chunks
  induction chunks with
  | nil =>
    intro summaries acc sent hlen _
    have : summaries = [] := List.length_eq_zero.1 hlen
    subst this
    simp [Summarizer.summarizeChunks]
  | cons c rest ih =>
    intro summaries acc sent hlen hok
    cases summaries with
    | nil => simp at hlen
    | cons sm srest =>
      have h0 := hok 0 c sm (by simp) (by simp)
      simp only [List.take_zero, List.map_nil, List.append_nil] at h0
      rw [Summarizer.summarizeChunks, h0]
      simp only []
      rw [ih srest (acc ++ [sm]) (sent ++ [fullPrompt prompt c]) (by simpa using hlen)]
      · simp
      · intro i c1 sm1 hc hsm
        have := hok (i + 1) c1 sm1 (by simpa using hc) (by simpa using hsm)
        simpa [List.append_assoc] using this

end summarizer

namespace cmd

/-- Once the goroutines have left an error in `errorChan`, `RunE` returns the first
one: the summarizer is not called and nothing is written or printed. -/
theorem RunE_error_no_output (w : World) (endpointConf : config.EndpointConfig)
    (isJSONL : Bool) (chunks : List String) (analysisPrompt : String) (e : Error)
    (rest : List Error)
    (hsplit : splitInput w endpointConf isJSONL = .ok chunks)
    (hkey : w.apiKey ≠ "")
    (hap : w.analysisPrompt = .ok analysisPrompt)
    (herr : (analyzeAll w analysisPrompt chunks w.schedule
      { errorChan := [], dir := w.workDir }).errorChan = e :: rest) :
    (RunE w endpointConf isJSONL).result = .err e ∧
    (RunE w endpointConf isJSONL).combined = none ∧
    (RunE w endpointConf isJSONL).summarizerSent = [] ∧
    (RunE w endpointConf isJSONL).written = none ∧
    (RunE w endpointConf isJSONL).printed = [] := by
  unfold RunE
  simp only [hsplit, hkey, if_false, hap, herr]
  simp

/-- When the analysis of the chunk at index `k0` fails and the goroutines of all other
chunks succeed, the goroutines listed leave in `errorChan` one error per occurrence of
`k0` in the list, and nothing else. -/
theorem analyzeAll_errorChan (w : World) (analysisPrompt : String) (chunks : List String)
    (k0 : Nat) (ck cause : String)
    (hck : chunks[k0]? = some ck)
    (hfail : w.analyzeChunk k0 (chunkPrompt analysisPrompt ck) = .error cause)
    (hothers : ∀ (i : Nat) (c : String), chunks[i]? = some c → i ≠ k0 →
      (∃ r, w.analyzeChunk i (chunkPrompt analysisPrompt c) = .ok r) ∧
      w.writeResultErr (resultFile i) = none) :
    ∀ (sched : List Nat) (sh : Shared),
      (analyzeAll w analysisPrompt chunks sched sh).errorChan =
        sh.errorChan ++ List.replicate (sched.count k0) (.chunkAnalysis (k0 + 1) cause) := by
  intro sched
  induction sched with
  | nil => intro sh; simp [analyzeAll]
  | cons i rest ih =>
    intro sh
    rw [analyzeAll]
    by_cases hi : i = k0
    · subst hi
      simp only [List.get?_eq_getElem?, hck]
      rw [ih, worker, hfail]
      simp [List.replicate_succ]
    · have hcount : (i :: rest).count k0 = rest.count k0 := by
        rw [List.count_cons_of_ne (fun h => hi h.symm)]
      cases hc : chunks[i]? with
      | none =>
        simp only [List.get?_eq_getElem?, hc]
        rw [ih, hcount]
      | some c =>
        obtain ⟨⟨r, hr⟩, hwr⟩ := hothers i c hc hi
        simp only [List.get?_eq_getElem?, hc]
        rw [ih, worker, hr, hcount]
        simp only [hwr]

end cmd

namespace cmd

/-- C13: for every number `N ≥ 1` of chunks and every `k` with `1 ≤ k ≤ N`, when the
root command dispatches the `N` chunks, the analysis of chunk `k` fails and the
goroutines of all other chunks succeed, then, in whatever order the goroutines
finish, exactly one error is collected, the failure of chunk `k`; `RunE` returns
it, the summarizer is never called and no final result is written or printed. -/
theorem RunE_one_failure (w : World) (endpointConf : config.EndpointConfig) (isJSONL : Bool)
    (chunks : List String) (analysisPrompt : String) (k : Nat) (ck cause : String)
    (hsplit : splitInput w endpointConf isJSONL = .ok chunks)
    (hkey : w.apiKey ≠ "")
    (hap : w.analysisPrompt = .ok analysisPrompt)
    (hsched : w.schedule.Perm (List.range chunks.length))
    (hk : 1 ≤ k) (hck : chunks[k - 1]? = some ck)
    (hfail : w.analyzeChunk (k - 1) (chunkPrompt analysisPrompt ck) = .error cause)
    (hothers : ∀ (i : Nat) (c : String), chunks[i]? = some c → i ≠ k - 1 →
      (∃ r, w.analyzeChunk i (chunkPrompt analysisPrompt c) = .ok r) ∧
      w.writeResultErr (resultFile i) = none) :
    1 ≤ chunks.length ∧ k ≤ chunks.length ∧
    (analyzeAll w analysisPrompt chunks w.schedule
      { errorChan := [], dir := w.workDir }).errorChan = [.chunkAnalysis k cause] ∧
    (RunE w endpointConf isJSONL).result = .err (.chunkAnalysis k cause) ∧
    (RunE w endpointConf isJSONL).combined = none ∧
    (RunE w endpointConf isJSONL).summarizerSent = [] ∧
    (RunE w endpointConf isJSONL).written = none ∧
    (RunE w endpointConf isJSONL).printed = [] := by
  have hlt : k - 1 < chunks.length := by
    by_contra h
    rw [List.getElem?_eq_none (by omega)] at hck
    exact Option.noConfusion hck
  have hcount : w.schedule.count (k - 1) = 1 := by
    rw [hsched.count_eq]
    exact List.count_eq_one_of_mem (List.nodup_range _) (List.mem_range.2 hlt)
  have hchan : (analyzeAll w analysisPrompt chunks w.schedule
      { errorChan := [], dir := w.workDir }).errorChan = [.chunkAnalysis k cause] := by
    rw [analyzeAll_errorChan w analysisPrompt chunks (k - 1) ck cause hck hfail hothers,
      hcount]
    have hk' : k - 1 + 1 = k := by omega
    simp [hk']
  exact ⟨by omega, by omega, hchan,
    RunE_error_no_output w endpointConf isJSONL chunks analysisPrompt _ [] hsplit hkey hap hchan⟩

/-- Instance of `RunE_one_failure`: twelve chunks, the analysis of chunk 11 fails, and
the goroutines finish in the reverse of the launch order. -/
theorem RunE_one_failure_witness :
    (splitInput (failWorld "abcdefghijkl" 11 (List.range 12).reverse) demoConf false
      = .ok ["a", "b", "c", "d", "e", "f", "g", "h", "i", "j", "k", "l"]) ∧
    ((failWorld "abcdefghijkl" 11 (List.range 12).reverse).apiKey ≠ "") ∧
    ((failWorld "abcdefghijkl" 11 (List.range 12).reverse).schedule.Perm
      (List.range ["a", "b", "c", "d", "e", "f", "g", "h", "i", "j", "k", "l"].length)) ∧
    ((1 : Nat) ≤ 11) ∧
    (["a", "b", "c", "d", "e", "f", "g", "h", "i", "j", "k", "l"][11 - 1]? = some "k") ∧
    (RunE (failWorld "abcdefghijkl" 11 (List.range 12).reverse) demoConf false).result
      = .err (.chunkAnalysis 11 "received non-200 status code: 500") ∧
    (RunE (failWorld "abcdefghijkl" 11 (List.range 12).reverse) demoConf false).combined
      = none ∧
    (RunE (failWorld "abcdefghijkl" 11 (List.range 12).reverse) demoConf false).summarizerSent
      = [] ∧
    (RunE (failWorld "abcdefghijkl" 11 (List.range 12).reverse) demoConf false).written
      = none ∧
    (RunE (failWorld "abcdefghijkl" 11 (List.range 12).reverse) demoConf false).printed
      = [] :=
  ⟨by decide, by decide, List.reverse_perm _, by decide, by decide,
    (RunE_one_failure (failWorld "abcdefghijkl" 11 (List.range 12).reverse) demoConf false
      ["a", "b", "c", "d", "e", "f", "g", "h", "i", "j", "k", "l"] "Analyze this:" 11 "k"
      "received non-200 status code: 500" (by decide) (by decide) rfl (List.reverse_perm _)
      (by decide) (by decide) rfl
      (by
        intro i c _ hne
        have hne' : ¬ i + 1 = 11 := by omega
        refine ⟨⟨"r" ++ toString (i + 1), ?_⟩, rfl⟩
        show (if i + 1 = 11 then Except.error "received non-200 status code: 500"
          else Except.ok ("r" ++ toString (i + 1))) = Except.ok ("r" ++ toString (i + 1))
        rw [if_neg hne'])).2.2.2⟩

end cmd

namespace summarizer

/-- A pass that ends with an analysis of the whole text ends the loop with it. -/
theorem summarizeLoop_of_done (s : Summarizer) (prompt : String) (st : ReductionState)
    (run : Run) (h : s.pass prompt st = .done run ∨ s.pass prompt st = .stuck run) (fuel : Nat) :
    s.summarizeLoop prompt (fuel + 1) st = run := by
  rw [summarizeLoop_eq_passes, Summarizer.passes]
  rcases h with h | h <;> rw [h]

/-- With a positive chunk size, a text whose tokens are at least one and at most
`chunkSize` comes back from `Split` whole, as its single chunk. -/
theorem Split_single (s : splitter.Splitter) (T : String) (hpos : 0 < s.chunkSize)
    (hne : s.Encode T ≠ []) (hle : ((s.Encode T).length : Int) ≤ s.chunkSize) :
    s.Split (.ok T) = .ok [s.tkm.Decode (s.Encode T)] := by
  have hN : 0 < (s.Encode T).length := List.length_pos.2 hne
  have hcs : s.chunkSize = ((s.chunkSize.toNat : Nat) : Int) := by omega
  obtain ⟨ws, hrun, hfl, -, -, hlen⟩ :=
    splitter.Split_spec s T s.chunkSize.toNat (by omega) hcs
  have hone : ws.length = 1 := by
    rw [hlen]
    have : (s.Encode T).length + s.chunkSize.toNat - 1
        = ((s.Encode T).length - 1) + s.chunkSize.toNat := by omega
    rw [this, Nat.add_div_right _ (by omega), Nat.div_eq_of_lt (by omega)]
  match ws, hone, hfl with
  | [w], _, hfl =>
    have hw : w = s.Encode T := by simpa using hfl
    rw [hrun, hw]
    rfl

/-- A text exactly at the budget, with at least one token, is not divided: the pass
hands it to `Split`, gets it back whole as one chunk and analyzes it whole. -/
theorem pass_at_budget_stuck (s : Summarizer) (prompt : String) (st : ReductionState)
    (hit : st.iteration ≤ maxIterations) (hsame : s.splitter.chunkSize = s.chunkSize)
    (hpos : 0 < s.chunkSize) (hne : s.splitter.Encode st.currentText ≠ [])
    (heq : ((s.splitter.Encode st.currentText).length : Int)
      + ((s.splitter.Encode prompt).length : Int) = s.chunkSize) :
    s.splitter.Split (.ok st.currentText)
      = .ok [s.splitter.tkm.Decode (s.splitter.Encode st.currentText)] ∧
    s.pass prompt st
      = .stuck (s.analyzeWhole prompt { st with iteration := st.iteration + 1 }) := by
  have hsplit := Split_single s.splitter st.currentText (by omega) hne (by omega)
  refine ⟨hsplit, ?_⟩
  rw [pass_over s prompt st hit (by omega), hsplit]
  simp [Summarizer.afterSplit]

/-- Counterexample to C11 as stated: with budget 5 and an empty prompt the text
"abcde" measures exactly 5 tokens.  It is not divided: `Split` returns it whole as
one chunk, no round of splitting takes place, and `Summarize` returns after a single
call of `Analyze` over the whole text, as it does for a text below the budget. -/
theorem Summarize_at_budget_not_split :
    ((constSummarizer.splitter.Encode "abcde").length : Int)
      + ((constSummarizer.splitter.Encode "").length : Int) = constSummarizer.chunkSize ∧
    constSummarizer.splitter.Split (.ok "abcde") = .ok ["abcde"] ∧
    constSummarizer.Summarize "abcde" "" =
      { result := .ok "a"
        final := { currentText := "abcde", iteration := 2,
                   sent := [fullPrompt "" "abcde"], rounds := 0 } } ∧
    constSummarizer.Summarize "abcd" "" =
      { result := .ok "a"
        final := { currentText := "abcd", iteration := 2,
                   sent := [fullPrompt "" "abcd"], rounds := 0 } } := by
  decide

/-- C11, amended: in `Summarize` the budget comparison is strict.  The loop is the
repetition of its passes, and a pass that measures the current text takes the Done
exit if and only if the tokens of the text plus those of the prompt are below the
budget.  The Done exit makes exactly one call of `Analyze`, over the prompt combined
with the current text, and its result is returned unchanged by the loop and by
`Summarize`.  A text for which the sum equals the budget exactly is not Done: it is
handed to `Split`; but, the splitter working on the same positive budget and the
text having at least one token, `Split` returns it whole as a single chunk, so it
is not divided: it is analyzed whole by one call of `Analyze` through the
single-chunk exit, and `Summarize` returns that result. -/
theorem Summarize_done_iff (s : Summarizer) (prompt : String) :
    (∀ (fuel : Nat) (st : ReductionState),
      s.summarizeLoop prompt fuel st = s.passes prompt fuel st) ∧
    (∀ st : ReductionState, st.iteration ≤ maxIterations →
      ((∃ run, s.pass prompt st = .done run) ↔
        ((s.splitter.Encode st.currentText).length : Int)
          + ((s.splitter.Encode prompt).length : Int) < s.chunkSize)) ∧
    (∀ st : ReductionState, st.iteration ≤ maxIterations →
      ((s.splitter.Encode st.currentText).length : Int)
        + ((s.splitter.Encode prompt).length : Int) < s.chunkSize →
      ∀ fuel, s.summarizeLoop prompt (fuel + 1) st =
        s.analyzeWhole prompt { st with iteration := st.iteration + 1 }) ∧
    (∀ text : String,
      ((s.splitter.Encode text).length : Int)
        + ((s.splitter.Encode prompt).length : Int) < s.chunkSize →
      (s.Summarize text prompt).final =
        { currentText := text, iteration := 2, sent := [fullPrompt prompt text],
          rounds := 0 } ∧
      (∀ out, s.client.Analyze [] (fullPrompt prompt text) = .ok out →
        (s.Summarize text prompt).result = .ok out) ∧
      (∀ e, s.client.Analyze [] (fullPrompt prompt text) = .error e →
        (s.Summarize text prompt).result = .err (.analyze e))) ∧
    (∀ st : ReductionState, st.iteration ≤ maxIterations →
      ((s.splitter.Encode st.currentText).length : Int)
        + ((s.splitter.Encode prompt).length : Int) = s.chunkSize →
      (∀ run, s.pass prompt st ≠ .done run) ∧
      s.pass prompt st =
        s.afterSplit prompt { st with iteration := st.iteration + 1 }
          (s.splitter.Split (.ok st.currentText))) ∧
    (∀ text : String,
      ((s.splitter.Encode text).length : Int)
        + ((s.splitter.Encode prompt).length : Int) = s.chunkSize →
      s.splitter.chunkSize = s.chunkSize → 0 < s.chunkSize → s.splitter.Encode text ≠ [] →
      s.splitter.Split (.ok text) = .ok [s.splitter.tkm.Decode (s.splitter.Encode text)] ∧
      s.pass prompt { currentText := text, iteration := 1, sent := [], rounds := 0 } =
        .stuck (s.analyzeWhole prompt
          { currentText := text, iteration := 2, sent := [], rounds := 0 }) ∧
      (s.Summarize text prompt).final =
        { currentText := text, iteration := 2, sent := [fullPrompt prompt text],
          rounds := 0 } ∧
      (∀ out, s.client.Analyze [] (fullPrompt prompt text) = .ok out →
        (s.Summarize text prompt).result = .ok out) ∧
      (∀ e, s.client.Analyze [] (fullPrompt prompt text) = .error e →
        (s.Summarize text prompt).result = .err (.analyze e))) := by
  have hwhole : ∀ text : String,
      (s.analyzeWhole prompt { currentText := text, iteration := 2, sent := [], rounds := 0 }).final
        = { currentText := text, iteration := 2, sent := [fullPrompt prompt text],
            rounds := 0 } ∧
      (∀ out, s.client.Analyze [] (fullPrompt prompt text) = .ok out →
        (s.analyzeWhole prompt
          { currentText := text, iteration := 2, sent := [], rounds := 0 }).result = .ok out) ∧
      (∀ e, s.client.Analyze [] (fullPrompt prompt text) = .error e →
        (s.analyzeWhole prompt
          { currentText := text, iteration := 2, sent := [], rounds := 0 }).result
            = .err (.analyze e)) := by
    intro text
    unfold Summarizer.analyzeWhole
    cases h : s.client.Analyze [] (fullPrompt prompt text) with
    | error e => simp [h]
    | ok out => simp [h]
  have hinit : (1 : Nat) ≤ maxIterations := by decide
  refine ⟨summarizeLoop_eq_passes s prompt, ?_, ?_, ?_, ?_, ?_⟩
  · intro st hit
    constructor
    · rintro ⟨run, hrun⟩
      by_contra hnb
      rw [pass_over s prompt st hit (by omega)] at hrun
      exact afterSplit_ne_done s prompt _ _ run hrun
    · intro hb
      exact ⟨_, pass_below s prompt st hit hb⟩
  · intro st hit hb fuel
    exact summarizeLoop_of_done s prompt st _ (Or.inl (pass_below s prompt st hit hb)) fuel
  · intro text hb
    have hrun : s.Summarize text prompt =
        s.analyzeWhole prompt { currentText := text, iteration := 2, sent := [], rounds := 0 } :=
      summarizeLoop_of_done s prompt
        { currentText := text, iteration := 1, sent := [], rounds := 0 } _
        (Or.inl (pass_below s prompt _ hinit hb)) maxIterations
    rw [hrun]
    exact hwhole text
  · intro st hit heq
    have hp := pass_over s prompt st hit (by omega)
    refine ⟨?_, hp⟩
    intro run hrun
    rw [hp] at hrun
    exact afterSplit_ne_done s prompt _ _ run hrun
  · intro text heq hsame hpos hne
    obtain ⟨hsplit, hp⟩ := pass_at_budget_stuck s prompt
      { currentText := text, iteration := 1, sent := [], rounds := 0 } hinit hsame hpos hne heq
    have hrun : s.Summarize text prompt =
        s.analyzeWhole prompt { currentText := text, iteration := 2, sent := [], rounds := 0 } :=
      summarizeLoop_of_done s prompt
        { currentText := text, iteration := 1, sent := [], rounds := 0 } _
        (Or.inr hp) maxIterations
    refine ⟨hsplit, hp, ?_⟩
    rw [hrun]
    exact hwhole text

/-- Instance of `Summarize_done_iff`: with budget 5 and an empty prompt, a text of 4
tokens takes the Done exit, and a text of 5 tokens does not, is handed to `Split`
and comes back whole; `Summarize` returns the single analysis in both cases. -/
theorem Summarize_done_iff_witness :
    ((1 : Nat) ≤ maxIterations) ∧
    (((constSummarizer.splitter.Encode "abcd").length : Int)
      + ((constSummarizer.splitter.Encode "").length : Int) < constSummarizer.chunkSize) ∧
    (((constSummarizer.splitter.Encode "abcde").length : Int)
      + ((constSummarizer.splitter.Encode "").length : Int) = constSummarizer.chunkSize) ∧
    ((∃ run, constSummarizer.pass ""
        { currentText := "abcd", iteration := 1, sent := [], rounds := 0 } = .done run) ↔
      ((constSummarizer.splitter.Encode "abcd").length : Int)
        + ((constSummarizer.splitter.Encode "").length : Int) < constSummarizer.chunkSize) ∧
    (constSummarizer.Summarize "abcd" "").final =
      { currentText := "abcd", iteration := 2, sent := [fullPrompt "" "abcd"], rounds := 0 } ∧
    (∀ run, constSummarizer.pass ""
        { currentText := "abcde", iteration := 1, sent := [], rounds := 0 } ≠ .done run) ∧
    constSummarizer.splitter.Split (.ok "abcde")
      = .ok [constSummarizer.splitter.tkm.Decode (constSummarizer.splitter.Encode "abcde")] ∧
    (constSummarizer.Summarize "abcde" "").final =
      { currentText := "abcde", iteration := 2, sent := [fullPrompt "" "abcde"],
        rounds := 0 } ∧
    (constSummarizer.Summarize "abcde" "").result = .ok "a" ∧
    constSummarizer.summarizeLoop "" 1
        { currentText := "abcd", iteration := 1, sent := [], rounds := 0 } =
      { result := .ok "a"
        final := { currentText := "abcd", iteration := 2,
                   sent := [fullPrompt "" "abcd"], rounds := 0 } } :=
  ⟨by decide, by decide, by decide,
    (Summarize_done_iff constSummarizer "").2.1
      { currentText := "abcd", iteration := 1, sent := [], rounds := 0 } (by decide),
    ((Summarize_done_iff constSummarizer "").2.2.2.1 "abcd" (by decide)).1,
    ((Summarize_done_iff constSummarizer "").2.2.2.2.1
      { currentText := "abcde", iteration := 1, sent := [], rounds := 0 }
      (by decide) (by decide)).1,
    ((Summarize_done_iff constSummarizer "").2.2.2.2.2 "abcde"
      (by decide) (by decide) (by decide) (by decide)).1,
    ((Summarize_done_iff constSummarizer "").2.2.2.2.2 "abcde"
      (by decide) (by decide) (by decide) (by decide)).2.2.1,
    ((Summarize_done_iff constSummarizer "").2.2.2.2.2 "abcde"
      (by decide) (by decide) (by decide) (by decide)).2.2.2.1 "a" rfl,
    by decide⟩

end summarizer

namespace summarizer

/-- C12: in one Splitting step of `Summarize`, when the split of the current text
yields `k > 1` chunks and every call of `Analyze` succeeds, exactly `k` calls are
made, one per sub-chunk and in sub-chunk order, each over the prompt combined with
that sub-chunk; the next current text is the `k` summaries in sub-chunk order joined
by the separator "\n\n---\n\n", and `iteration` has grown by exactly one.  This is
what the loop of `Summarize` itself does: it is the repetition of its passes, it
goes on from that next state, a call of `Summarize` on such a text is its loop from
that state, and when the joined summaries are below the budget the loop returns the
final analysis of exactly that text, after the `k` calls and one more. -/
theorem Summarize_splitting_step (s : Summarizer) (prompt : String) (st : ReductionState)
    (chunks summaries : List String)
    (hit : st.iteration ≤ maxIterations)
    (hover : s.chunkSize ≤ ((s.splitter.Encode st.currentText).length : Int)
      + ((s.splitter.Encode prompt).length : Int))
    (hsplit : s.splitter.Split (.ok st.currentText) = .ok chunks)
    (hk : 1 < chunks.length)
    (hlen : summaries.length = chunks.length)
    (hok : ∀ (i : Nat) (c sm : String), chunks[i]? = some c → summaries[i]? = some sm →
      s.client.Analyze (st.sent ++ (chunks.take i).map (fullPrompt prompt))
        (fullPrompt prompt c) = .ok sm) :
    (∀ (fuel : Nat) (st1 : ReductionState),
      s.summarizeLoop prompt fuel st1 = s.passes prompt fuel st1) ∧
    s.pass prompt st = .again
      { currentText := String.intercalate "\n\n---\n\n" summaries,
        iteration := st.iteration + 1,
        sent := st.sent ++ chunks.map (fullPrompt prompt),
        rounds := st.rounds + 1 } ∧
    (st.sent ++ chunks.map (fullPrompt prompt)).length = st.sent.length + chunks.length ∧
    (∀ fuel, s.summarizeLoop prompt (fuel + 1) st =
      s.summarizeLoop prompt fuel
        { currentText := String.intercalate "\n\n---\n\n" summaries,
          iteration := st.iteration + 1,
          sent := st.sent ++ chunks.map (fullPrompt prompt),
          rounds := st.rounds + 1 }) ∧
    (st.iteration = 1 → st.sent = [] → st.rounds = 0 →
      s.Summarize st.currentText prompt =
        s.summarizeLoop prompt maxIterations
          { currentText := String.intercalate "\n\n---\n\n" summaries,
            iteration := st.iteration + 1,
            sent := st.sent ++ chunks.map (fullPrompt prompt),
            rounds := st.rounds + 1 }) ∧
    (st.iteration + 1 ≤ maxIterations →
      ((s.splitter.Encode (String.intercalate "\n\n---\n\n" summaries)).length : Int)
        + ((s.splitter.Encode prompt).length : Int) < s.chunkSize →
      ∀ fuel,
        s.summarizeLoop prompt (fuel + 2) st =
          s.analyzeWhole prompt
            { currentText := String.intercalate "\n\n---\n\n" summaries,
              iteration := st.iteration + 2,
              sent := st.sent ++ chunks.map (fullPrompt prompt),
              rounds := st.rounds + 1 } ∧
        (s.summarizeLoop prompt (fuel + 2) st).final =
          { currentText := String.intercalate "\n\n---\n\n" summaries,
            iteration := st.iteration + 2,
            sent := st.sent ++ chunks.map (fullPrompt prompt)
              ++ [fullPrompt prompt (String.intercalate "\n\n---\n\n" summaries)],
            rounds := st.rounds + 1 }) := by
  have hne : ¬ chunks.length = 1 := by omega
  have hfan := summarizeChunks_replies s prompt chunks summaries [] st.sent hlen hok
  have hp : s.pass prompt st = .again
      { currentText := String.intercalate "\n\n---\n\n" summaries,
        iteration := st.iteration + 1,
        sent := st.sent ++ chunks.map (fullPrompt prompt),
        rounds := st.rounds + 1 } := by
    rw [pass_over s prompt st hit hover, hsplit]
    simp only [Summarizer.afterSplit, hne, if_false, hfan, List.nil_append]
    rfl
  have hloop : ∀ fuel, s.summarizeLoop prompt (fuel + 1) st =
      s.summarizeLoop prompt fuel
        { currentText := String.intercalate "\n\n---\n\n" summaries,
          iteration := st.iteration + 1,
          sent := st.sent ++ chunks.map (fullPrompt prompt),
          rounds := st.rounds + 1 } := by
    intro fuel
    rw [summarizeLoop_eq_passes, Summarizer.passes, hp, summarizeLoop_eq_passes]
  refine ⟨summarizeLoop_eq_passes s prompt, hp, by simp, hloop, ?_, ?_⟩
  · intro h1 h2 h3
    have hst : st = { currentText := st.currentText, iteration := 1, sent := [], rounds := 0 } := by
      cases st
      simp only [ReductionState.mk.injEq, true_and]
      exact ⟨h1, h2, h3⟩
    unfold Summarizer.Summarize
    rw [← hst]
    exact hloop maxIterations
  · intro hit2 hb fuel
    have hdone := summarizeLoop_of_done s prompt
      { currentText := String.intercalate "\n\n---\n\n" summaries,
        iteration := st.iteration + 1,
        sent := st.sent ++ chunks.map (fullPrompt prompt),
        rounds := st.rounds + 1 } _
      (Or.inl (pass_below s prompt _ hit2 hb)) fuel
    have hrun : s.summarizeLoop prompt (fuel + 2) st =
        s.analyzeWhole prompt
          { currentText := String.intercalate "\n\n---\n\n" summaries,
            iteration := st.iteration + 2,
            sent := st.sent ++ chunks.map (fullPrompt prompt),
            rounds := st.rounds + 1 } := by
      rw [hloop (fuel + 1), hdone]
    refine ⟨hrun, ?_⟩
    rw [hrun]
    unfold Summarizer.analyzeWhole
    cases h : s.client.Analyze (st.sent ++ chunks.map (fullPrompt prompt))
        (fullPrompt prompt (String.intercalate "\n\n---\n\n" summaries)) with
    | error e => simp [h]
    | ok out => simp [h]

/-- Instance of `Summarize_splitting_step`: with budget 12, an empty prompt and a
client that always answers "a", a text of 13 tokens is split into two chunks, two
prompts are sent, the next text is "a", separator, "a", which is below the budget,
and `Summarize` returns its final analysis after three calls and one round. -/
theorem Summarize_splitting_step_witness :
    ((1 : Nat) ≤ maxIterations) ∧
    (wideSummarizer.chunkSize ≤ ((wideSummarizer.splitter.Encode "abcdefghijklm").length : Int)
      + ((wideSummarizer.splitter.Encode "").length : Int)) ∧
    (wideSummarizer.splitter.Split (.ok "abcdefghijklm") = .ok ["abcdefghijkl", "m"]) ∧
    (1 < ["abcdefghijkl", "m"].length) ∧ (["a", "a"].length = ["abcdefghijkl", "m"].length) ∧
    wideSummarizer.pass ""
        { currentText := "abcdefghijklm", iteration := 1, sent := [], rounds := 0 }
      = .again
        { currentText := String.intercalate "\n\n---\n\n" ["a", "a"]
          iteration := 1 + 1
          sent := [] ++ ["abcdefghijkl", "m"].map (fullPrompt "")
          rounds := 0 + 1 } ∧
    String.intercalate "\n\n---\n\n" ["a", "a"] = "a\n\n---\n\na" ∧
    (wideSummarizer.summarizeLoop "" (0 + 2)
        { currentText := "abcdefghijklm", iteration := 1, sent := [], rounds := 0 }).final =
      { currentText := String.intercalate "\n\n---\n\n" ["a", "a"]
        iteration := 1 + 2
        sent := [] ++ ["abcdefghijkl", "m"].map (fullPrompt "")
          ++ [fullPrompt "" (String.intercalate "\n\n---\n\n" ["a", "a"])]
        rounds := 0 + 1 } ∧
    wideSummarizer.Summarize "abcdefghijklm" "" =
      { result := .ok "a"
        final := { currentText := "a\n\n---\n\na", iteration := 3,
                   sent := [fullPrompt "" "abcdefghijkl", fullPrompt "" "m",
                            fullPrompt "" "a\n\n---\n\na"],
                   rounds := 1 } } :=
  have hok : ∀ (i : Nat) (c sm : String), ["abcdefghijkl", "m"][i]? = some c →
      ["a", "a"][i]? = some sm →
      wideSummarizer.client.Analyze
        (([] : List String) ++ (["abcdefghijkl", "m"].take i).map (fullPrompt ""))
        (fullPrompt "" c) = .ok sm := by
    intro i c sm _ hsm
    have hsm1 : sm = "a" := by
      rcases i with _ | _ | i
      · simpa using hsm.symm
      · simpa using hsm.symm
      · simp at hsm
    subst hsm1
    rfl
  ⟨by decide, by decide, by decide, by decide, by decide,
    (Summarize_splitting_step wideSummarizer ""
      { currentText := "abcdefghijklm", iteration := 1, sent := [], rounds := 0 }
      ["abcdefghijkl", "m"] ["a", "a"] (by decide) (by decide) (by decide) (by decide)
      (by decide) hok).2.1,
    by decide,
    ((Summarize_splitting_step wideSummarizer ""
      { currentText := "abcdefghijklm", iteration := 1, sent := [], rounds := 0 }
      ["abcdefghijkl", "m"] ["a", "a"] (by decide) (by decide) (by decide) (by decide)
      (by decide) hok).2.2.2.2.2 (by decide) (by decide) 0).2,
    by decide⟩

end summarizer
